import Mathlib

/-!
Shallow embedding of the note storage/retrieval engine of the `burh`
repository (`src/notes/note.go`), together with proofs settling the frozen
claims about its specification.

Go strings are modelled as `List Char` (rune sequences).  Each helper below
embeds the corresponding function from Go's `strings`/`path/filepath`/`time`
packages as used by `note.go`; the note codec and catalog operations are then
translated line by line from the source.
-/

namespace Burh

/-- A Go string, viewed as its sequence of runes. -/
abbrev Str := List Char

/-- Convenience conversion from Lean string literals. -/
def str (x : String) : Str := x.toList

/-- Model of `unicode.IsSpace` restricted to the ASCII whitespace characters that can
appear in this code base (space, tab, newline, vertical tab, form feed,
carriage return). -/
def goIsSpace (c : Char) : Bool :=
  c == ' ' || c == '\t' || c == '\n' || c == '\x0b' || c == '\x0c' || c == '\r'

/-- Model of `strings.TrimSpace`, left side. -/
def trimLeft (s : Str) : Str := s.dropWhile goIsSpace

/-- Model of `strings.TrimSpace`, right side. -/
def trimRight (s : Str) : Str := (s.reverse.dropWhile goIsSpace).reverse

/-- Model of `strings.TrimSpace`. -/
def trimSpace (s : Str) : Str := trimRight (trimLeft s)

/-- Model of `strings.HasPrefix s p`. -/
def startsWith : Str → Str → Bool
  | _, [] => true
  | [], _ :: _ => false
  | c :: s, p :: ps => c == p && startsWith s ps

/-- Model of `strings.HasSuffix s p` (a suffix is a reversed-side leading match). -/
def endsWith (s p : Str) : Bool := startsWith s.reverse p.reverse

/-- Model of `strings.TrimPrefix s pre` (written here as `trimLeading`). -/
def trimLeading (s pre : Str) : Str :=
  if startsWith s pre then s.drop pre.length else s

/-- Model of `strings.TrimSuffix s suf` (written here as `trimTrailing`). -/
def trimTrailing (s suf : Str) : Str :=
  if endsWith s suf then s.take (s.length - suf.length) else s

/-- ASCII case mapping used by `strings.ToLower` on the inputs in play. -/
def toLowerStr (s : Str) : Str := s.map Char.toLower

/-- ASCII case mapping used by `strings.ToUpper` on the inputs in play. -/
def toUpperStr (s : Str) : Str := s.map Char.toUpper

/-- Model of `strings.ReplaceAll s (String.singleton a) (String.singleton b)`:
single-character replacement is a character map. -/
def replaceChar (a b : Char) (s : Str) : Str :=
  s.map fun c => if c == a then b else c

/-- Worker for `replaceAll`; the fuel argument (initially the input length)
only makes the structural recursion explicit and is never exhausted for the
non-empty patterns this code base uses. -/
def replaceAllGo (old new : Str) : Nat → Str → Str
  | _, [] => []
  | 0, s => s
  | fuel + 1, c :: rest =>
    if startsWith (c :: rest) old then
      new ++ replaceAllGo old new fuel ((c :: rest).drop old.length)
    else
      c :: replaceAllGo old new fuel rest

/-- Model of `strings.ReplaceAll s old new` for a non-empty pattern `old`
(non-overlapping, left to right). -/
def replaceAll (old new s : Str) : Str := replaceAllGo old new s.length s

/-- Model of `strings.Index s sub` (`none` encodes Go's `-1`). -/
def indexOfSub : Str → Str → Option Nat
  | s, sub =>
    if startsWith s sub then some 0
    else
      match s with
      | [] => none
      | _ :: rest => (indexOfSub rest sub).map (· + 1)

/-- Model of `strings.Contains s sub`. -/
def containsSub (s sub : Str) : Bool := (indexOfSub s sub).isSome

/-- Model of `strings.LastIndex s (String.singleton c)` (`none` encodes `-1`). -/
def lastIndexChar (c : Char) (s : Str) : Option Nat :=
  match s.reverse.findIdx? (· == c) with
  | some i => some (s.length - 1 - i)
  | none => none

/-- Model of `strings.Fields`: split around runs of whitespace, dropping empties. -/
def fields (s : Str) : List Str :=
  (s.splitOnP goIsSpace).filter (· ≠ [])

/-! ## Time model

`time.Time` values in `note.go` all live in a single fixed zone (parsed query
dates, filename-derived creation stamps).  An instant is therefore determined
by its civil fields, and `After`/`Before` compare the corresponding second
counts. -/

/-- A civil date-time at second resolution, standing in for `time.Time`. -/
structure DateTime where
  year : Nat
  month : Nat
  day : Nat
  hour : Nat
  minute : Nat
  second : Nat
deriving DecidableEq

/-- Day number of a civil date (days since 1970-01-01, standard
era-of-400-years computation, matching Go's proleptic Gregorian calendar). -/
def daysFromCivil (y m d : Int) : Int :=
  let y' := if m ≤ 2 then y - 1 else y
  let era := (if 0 ≤ y' then y' else y' - 399) / 400
  let yoe := y' - era * 400
  let doy := (153 * (if 2 < m then m - 3 else m + 9) + 2) / 5 + d - 1
  let doe := yoe * 365 + yoe / 4 - yoe / 100 + doy
  era * 146097 + doe - 719468

/-- The instant of a `DateTime`, in seconds (Unix epoch origin). -/
def toSec (t : DateTime) : Int :=
  daysFromCivil t.year t.month t.day * 86400
    + t.hour * 3600 + t.minute * 60 + t.second

/-- The decimal digit character for `d < 10`. -/
def digitChar : Nat → Char
  | 0 => '0' | 1 => '1' | 2 => '2' | 3 => '3' | 4 => '4'
  | 5 => '5' | 6 => '6' | 7 => '7' | 8 => '8' | 9 => '9'
  | _ => '0'

/-- Worker for `natToDigits`; fuel makes the recursion structural and is
never exhausted when it starts at `n` itself. -/
def natToDigitsGo : Nat → Nat → List Nat
  | 0, n => [n % 10]
  | fuel + 1, n => if n < 10 then [n] else natToDigitsGo fuel (n / 10) ++ [n % 10]

/-- Decimal digits of a natural number, most significant first. -/
def natToDigits (n : Nat) : List Nat := natToDigitsGo n n

/-- Decimal notation of `n`, zero-padded on the left to width `w` (the
fixed-width numeric fields of Go's reference-layout formatting). -/
def padNum (w n : Nat) : Str :=
  let ds := (natToDigits n).map digitChar
  List.replicate (w - ds.length) '0' ++ ds

/-- Model of `t.Format "20060102_150405"`. -/
def formatCompact (t : DateTime) : Str :=
  padNum 4 t.year ++ padNum 2 t.month ++ padNum 2 t.day ++ str "_"
    ++ padNum 2 t.hour ++ padNum 2 t.minute ++ padNum 2 t.second

/-- Model of `t.Format "2006-01-02"`. -/
def formatYMD (t : DateTime) : Str :=
  padNum 4 t.year ++ str "-" ++ padNum 2 t.month ++ str "-" ++ padNum 2 t.day

/-- Model of `t.Format "2006-01-02 15:04:05"`. -/
def formatFullDT (t : DateTime) : Str :=
  formatYMD t ++ str " " ++ padNum 2 t.hour ++ str ":" ++ padNum 2 t.minute
    ++ str ":" ++ padNum 2 t.second

/-! Parsing of the reference layouts used by `SearchByDate` and by the
filename timestamp.  With the layouts of `note.go`, Go's `time.Parse` demands
exactly the stated number of digits for the year (`2006`), zero-padded month
(`01`), day (`02`), minute (`04`) and second (`05`) fields, while the hour
field `15` goes through `getnum(value, false)` and accepts one or two digits;
the whole input must be consumed, and month, day (against the month, leap
years included), hour, minute and second are range-checked. -/

/-- Read exactly `w` decimal digits from the front of `s` (Go's
`getnum`/`getnum4` with `fixed = true`). -/
def readDigits : Nat → Str → Option (Nat × Str)
  | 0, s => some (0, s)
  | _ + 1, [] => none
  | w + 1, c :: s =>
    if c.isDigit then
      (readDigits w s).bind fun (n, rest) =>
        some ((c.toNat - 48) * 10 ^ w + n, rest)
    else none

/-- Go's `getnum(value, false)`: one digit, or two when a second digit
follows (used for the `15` hour field). -/
def readNum1or2 : Str → Option (Nat × Str)
  | [] => none
  | c :: s =>
    if c.isDigit then
      match s with
      | [] => some (c.toNat - 48, [])
      | d :: s2 =>
        if d.isDigit then some ((c.toNat - 48) * 10 + (d.toNat - 48), s2)
        else some (c.toNat - 48, d :: s2)
    else none

/-- Consume the literal character `c`. -/
def readLit (c : Char) : Str → Option Str
  | [] => none
  | d :: s => if d == c then some s else none

/-- Number of days in a month of the proleptic Gregorian calendar. -/
def daysInMonth (y m : Nat) : Nat :=
  if m = 2 then
    if y % 4 = 0 ∧ (y % 100 ≠ 0 ∨ y % 400 = 0) then 29 else 28
  else if m = 4 ∨ m = 6 ∨ m = 9 ∨ m = 11 then 30
  else 31

/-- Model of `time.Parse`'s range validation of the fields read from a layout. -/
def validDT (t : DateTime) : Bool :=
  1 ≤ t.month && t.month ≤ 12 && 1 ≤ t.day && t.day ≤ daysInMonth t.year t.month
    && t.hour ≤ 23 && t.minute ≤ 59 && t.second ≤ 59

/-- Parse a date layout `YYYY s MM s DD` with separator `sep`. -/
def parseYMD (sep : Char) (s : Str) : Option (Nat × Nat × Nat × Str) :=
  (readDigits 4 s).bind fun (y, r) =>
    (readLit sep r).bind fun r =>
      (readDigits 2 r).bind fun (mo, r) =>
        (readLit sep r).bind fun r =>
          (readDigits 2 r).map fun (d, r) => (y, mo, d, r)

/-- Parse the trailing ` 15:04:05` clock part of the long layouts; the hour
accepts one or two digits, like Go's `15` field. -/
def parseClock (s : Str) : Option (Nat × Nat × Nat × Str) :=
  (readLit ' ' s).bind fun r =>
    (readNum1or2 r).bind fun (h, r) =>
      (readLit ':' r).bind fun r =>
        (readDigits 2 r).bind fun (mi, r) =>
          (readLit ':' r).bind fun r =>
            (readDigits 2 r).map fun (sec, r) => (h, mi, sec, r)

/-- Require the whole input consumed and the fields in range. -/
def finishDT (t : DateTime) (rest : Str) : Option DateTime :=
  if rest = [] ∧ validDT t then some t else none

/-- Model of `time.Parse "2006-01-02" q` / `"2006/01/02"` according to `sep`. -/
def parseLayoutYMD (sep : Char) (q : Str) : Option DateTime :=
  (parseYMD sep q).bind fun (y, mo, d, r) => finishDT ⟨y, mo, d, 0, 0, 0⟩ r

/-- Model of `time.Parse "01/02/2006" q` (month/day/year). -/
def parseLayoutMDY (q : Str) : Option DateTime :=
  (readDigits 2 q).bind fun (mo, r) =>
    (readLit '/' r).bind fun r =>
      (readDigits 2 r).bind fun (d, r) =>
        (readLit '/' r).bind fun r =>
          (readDigits 4 r).bind fun (y, r) => finishDT ⟨y, mo, d, 0, 0, 0⟩ r

/-- Model of `time.Parse "02/01/2006" q` (day/month/year). -/
def parseLayoutDMY (q : Str) : Option DateTime :=
  (readDigits 2 q).bind fun (d, r) =>
    (readLit '/' r).bind fun r =>
      (readDigits 2 r).bind fun (mo, r) =>
        (readLit '/' r).bind fun r =>
          (readDigits 4 r).bind fun (y, r) => finishDT ⟨y, mo, d, 0, 0, 0⟩ r

/-- Model of `time.Parse "2006-01-02 15:04:05" q` / the `/`-separated variant. -/
def parseLayoutYMDHMS (sep : Char) (q : Str) : Option DateTime :=
  (parseYMD sep q).bind fun (y, mo, d, r) =>
    (parseClock r).bind fun (h, mi, sec, r) => finishDT ⟨y, mo, d, h, mi, sec⟩ r

/-- The `for _, format := range formats` loop of `SearchByDate` (lines
220-234): try the six layouts in order, first success wins. -/
def tryParseDateQuery (q : Str) : Option DateTime :=
  (parseLayoutYMD '-' q).orElse fun _ =>
    (parseLayoutYMD '/' q).orElse fun _ =>
      (parseLayoutMDY q).orElse fun _ =>
        (parseLayoutDMY q).orElse fun _ =>
          (parseLayoutYMDHMS '-' q).orElse fun _ => parseLayoutYMDHMS '/' q

/-- Model of `time.Parse "20060102_150405"` applied to `id[:15]` in
`loadNoteFromFile`. -/
def parseCompactTs (s : Str) : Option DateTime :=
  (readDigits 4 s).bind fun (y, r) =>
    (readDigits 2 r).bind fun (mo, r) =>
      (readDigits 2 r).bind fun (d, r) =>
        (readLit '_' r).bind fun r =>
          (readNum1or2 r).bind fun (h, r) =>
            (readDigits 2 r).bind fun (mi, r) =>
              (readDigits 2 r).bind fun (sec, r) =>
                finishDT ⟨y, mo, d, h, mi, sec⟩ r

/-! ## The Note data model and codec (`src/notes/note.go`) -/

/-- The `Note` struct (lines 12-21). -/
structure Note where
  id : Str
  title : Str
  content : Str
  created : DateTime
  modified : DateTime
  tags : List Str
  format : Str
  filename : Str
deriving DecidableEq

/-- The ten filesystem-unsafe characters `sanitizeTitle` replaces, in the
order of its `strings.ReplaceAll` calls (lines 475-484). -/
def unsafeChars : List Char := [' ', '/', '\\', ':', '*', '?', '"', '<', '>', '|']

/-- Model of `sanitizeTitle` before its truncation step: the ten sequential character
substitutions followed by lowercasing (lines 475-487). -/
def substLower (title : Str) : Str :=
  toLowerStr (unsafeChars.foldl (fun s a => replaceChar a '_' s) title)

/-- Model of `sanitizeTitle` (lines 472-495).  The embedding counts runes where Go's
`len`/slicing counts bytes; the two agree on ASCII titles. -/
def sanitizeTitle (title : Str) : Str :=
  let t := substLower title
  if 50 < t.length then t.take 50 else t

/-- The id generated by `CreateNote` (line 61):
`now.Format("20060102_150405") + "_" + sanitizeTitle title`. -/
def makeId (now : DateTime) (title : Str) : Str :=
  formatCompact now ++ str "_" ++ sanitizeTitle title

/-- The format defaulting of `CreateNote` (lines 64-66). -/
def normalizeFormat (format : Str) : Str :=
  if format ≠ str "org" ∧ format ≠ str "txt" ∧ format ≠ str "md" then str "txt"
  else format

/-- Model of `CreateNote` (lines 56-93), with the ambient clock passed explicitly and
the file-system write elided (it returns the constructed note). -/
def createNote (now : DateTime) (title content : Str) (tags : List Str)
    (format : Str) : Note :=
  let id := makeId now title
  let format' := normalizeFormat format
  let filename := id ++ str "." ++ format'
  { id := id, title := title, content := content, created := now,
    modified := now, tags := tags, format := format', filename := filename }

/-- Model of `formatTxtNote` (lines 337-353). -/
def formatTxtNote (note : Note) : Str :=
  str "Title: " ++ note.title ++ str "\n"
    ++ str "Created: " ++ formatFullDT note.created ++ str "\n"
    ++ str "Modified: " ++ formatFullDT note.modified ++ str "\n"
    ++ (if note.tags.length > 0 then
          str "Tags: " ++ List.intercalate (str ", ") note.tags ++ str "\n"
        else [])
    ++ str "\n"
    ++ replaceAll (str "\\n") (str "\n") note.content

/-- Model of `formatOrgNote` (lines 318-335). -/
def formatOrgNote (note : Note) : Str :=
  str "#+TITLE: " ++ note.title ++ str "\n"
    ++ str "#+DATE: " ++ formatYMD note.created ++ str "\n"
    ++ str "#+MODIFIED: " ++ formatYMD note.modified ++ str "\n"
    ++ (if note.tags.length > 0 then
          str "#+TAGS: " ++ List.intercalate (str " ") note.tags ++ str "\n"
        else [])
    ++ str "\n"
    ++ str "* CONTENT\n"
    ++ replaceAll (str "\\n") (str "\n") note.content

/-- The `parseTxtNote` scan (lines 446-467): process lines in order, breaking
at the first content line; `whole` is the complete input, used for the
`strings.Index` content-start computation. -/
def txtLoop (whole : Str) : List Str → Str → List Str → Str × Str × List Str
  | [], title, tags => (title, [], tags)
  | line :: rest, title, tags =>
    if startsWith line (str "Title:") then
      txtLoop whole rest (trimSpace (trimLeading line (str "Title:"))) tags
    else if startsWith line (str "Tags:") then
      let tagStr := trimSpace (trimLeading line (str "Tags:"))
      txtLoop whole rest title ((List.splitOn ',' tagStr).map trimSpace)
    else if startsWith line (str "Created:") || startsWith line (str "Modified:") then
      txtLoop whole rest title tags
    else if line = [] then
      txtLoop whole rest title tags
    else
      let content := match indexOfSub whole line with
        | some i => trimSpace (whole.drop i)
        | none => []
      (title, content, tags)

/-- Model of `parseTxtNote` (lines 442-470): returns `(title, content, tags)`. -/
def parseTxtNote (content : Str) : Str × Str × List Str :=
  txtLoop content (List.splitOn '\n' content) [] []

/-- Insertion into the `tagSet` map; insertion order stands in for Go's
(unspecified) map iteration order when the set is flattened to a slice. -/
def insertTag (acc : List Str) (t : Str) : List Str :=
  if t ∈ acc then acc else acc ++ [t]

/-- The `addTags` closure of `parseOrgNote` (lines 363-381). -/
def addTags (tagLine : Str) (acc : List Str) : List Str :=
  let trimmed := trimSpace tagLine
  if trimmed = [] then acc
  else
    (fields (replaceChar ':' ' ' trimmed)).foldl
      (fun a t =>
        if t = [] then a
        else
          let t' := trimSpace t
          if t' = [] then a else insertTag a t')
      acc

/-- One non-directive line's heading-tag extraction (lines 407-416). -/
def headingTags (line : Str) (acc : List Str) : List Str :=
  if startsWith line (str "*") then
    match lastIndexChar ' ' line with
    | some lastSpace =>
      if lastSpace < line.length - 1 then
        let tagBlock := trimSpace (line.drop (lastSpace + 1))
        if startsWith tagBlock (str ":") && endsWith tagBlock (str ":") then
          addTags tagBlock acc
        else acc
      else acc
    | none => acc
  else acc

/-- The scan state of `parseOrgNote`: current title, accumulated tag set,
content start index (if found). -/
structure OrgState where
  title : Str
  tagAcc : List Str
  contentStart : Option Nat
deriving DecidableEq

/-- One iteration of the `parseOrgNote` loop (lines 385-428) on the raw line
at index `i`. -/
def orgStep (i : Nat) (raw : Str) (st : OrgState) : OrgState :=
  let line := trimSpace raw
  let upper := toUpperStr line
  if startsWith upper (str "#+TITLE:") then
    let maybe := trimSpace (line.drop (str "#+TITLE:").length)
    { st with title := if maybe ≠ [] then maybe else st.title }
  else if startsWith upper (str "#+FILETAGS:") then
    { st with tagAcc := addTags (line.drop (str "#+FILETAGS:").length) st.tagAcc }
  else if startsWith upper (str "#+TAGS:") then
    { st with tagAcc := addTags (line.drop (str "#+TAGS:").length) st.tagAcc }
  else
    let tagAcc' := headingTags line st.tagAcc
    let contentStart' :=
      match st.contentStart with
      | some j => some j
      | none =>
        if line = [] then none
        else if startsWith (trimSpace line) (str "#+") then none
        else some i
    { st with tagAcc := tagAcc', contentStart := contentStart' }

/-- The full `parseOrgNote` loop over all lines. -/
def orgLoop : Nat → List Str → OrgState → OrgState
  | _, [], st => st
  | i, raw :: rest, st => orgLoop (i + 1) rest (orgStep i raw st)

/-- Model of `parseOrgNote` (lines 355-440): returns `(title, content, tags)`. -/
def parseOrgNote (content : Str) : Str × Str × List Str :=
  let lines := List.splitOn '\n' content
  let st := orgLoop 0 lines ⟨[], [], none⟩
  let noteContent :=
    match st.contentStart with
    | some i => trimSpace (List.intercalate (str "\n") (lines.drop i))
    | none => []
  (st.title, noteContent, st.tagAcc)

/-- Model of `filepath.Ext`: the suffix of the file name starting at its final dot
(empty when there is no dot). -/
def fileExt (name : Str) : Str :=
  match lastIndexChar '.' name with
  | some i => name.drop i
  | none => []

/-- Model of `loadNoteFromFile` (lines 275-316) after a successful read: `filename` is
the base name, `content` the bytes read, `now` the ambient clock used for the
fallback creation time and the modified stamp. -/
def loadNote (filename content : Str) (now : DateTime) : Note :=
  let ext := fileExt filename
  let id := trimTrailing filename ext
  let parsed :=
    if ext = str ".org" then parseOrgNote content else parseTxtNote content
  let created :=
    if 15 ≤ id.length then
      match parseCompactTs (id.take 15) with
      | some t => t
      | none => now
    else now
  { id := id, title := parsed.1, content := parsed.2.1, created := created,
    modified := now, tags := parsed.2.2,
    format := trimLeading ext (str "."), filename := filename }

/-- One entry of `os.ReadDir`'s result for a notes directory: its name,
whether it is a subdirectory, and the file bytes (`none` when the subsequent
`os.ReadFile` would fail). -/
structure DirEntry where
  name : Str
  isDir : Bool
  content : Option Str
deriving DecidableEq

/-- Recognized note extensions (line 152). -/
def recognizedExt (name : Str) : Bool :=
  endsWith name (str ".org") || endsWith name (str ".txt") || endsWith name (str ".md")

/-- Model of `ListNotes` (lines 143-163) over one configured directory (the multi
directory version concatenates this over the directory list); a file whose
read fails is skipped (`continue`), parsing itself never fails. -/
def listNotes : List DirEntry → DateTime → List Note
  | [], _ => []
  | e :: rest, now =>
    if !e.isDir && recognizedExt e.name then
      match e.content with
      | some c => loadNote e.name c now :: listNotes rest now
      | none => listNotes rest now
    else listNotes rest now

/-- Model of `GetNote` (lines 95-110): first directory entry whose name has the given
id as a leading string is loaded; a read failure on it, like no match at all,
yields `none`. -/
def getNote : List DirEntry → Str → DateTime → Option Note
  | [], _, _ => none
  | e :: rest, id, now =>
    if !e.isDir && startsWith e.name id then e.content.map (loadNote e.name · now)
    else getNote rest id now

/-- Model of `UpdateNote` (lines 112-129): wholesale replacement of title, content and
tags on the note `GetNote` finds. -/
def updateNote (entries : List DirEntry) (id title content : Str)
    (tags : List Str) (now : DateTime) : Option Note :=
  (getNote entries id now).map fun n =>
    { n with title := title, content := content, tags := tags, modified := now }

/-- Model of `DeleteNote` (lines 131-140): the file name it removes, when found. -/
def deleteTarget (entries : List DirEntry) (id : Str) (now : DateTime) :
    Option Str :=
  (getNote entries id now).map (·.filename)

/-- Model of `SearchByDate` (lines 206-258), applied to the notes that `ListNotes`
produced.  `After`/`Before` are strict comparisons of instants; `Add` adds
seconds. -/
def searchByDate (dateQuery : Str) (notes : List Note) : List Note :=
  let q := toLowerStr (trimSpace dateQuery)
  match tryParseDateQuery q with
  | none =>
    notes.filter fun n => containsSub (toLowerStr (formatYMD n.created)) q
  | some target =>
    let targetDateStart : DateTime :=
      ⟨target.year, target.month, target.day, 0, 0, 0⟩
    let startSec := toSec targetDateStart
    let endSec := startSec + 86400
    notes.filter fun n => startSec < toSec n.created && toSec n.created < endSec

/-- Field bounds under which the timestamp's formatted fields have their
nominal widths (every real clock reading satisfies them). -/
def dtBounded (t : DateTime) : Prop :=
  t.year < 10000 ∧ t.month < 100 ∧ t.day < 100 ∧ t.hour < 100
    ∧ t.minute < 100 ∧ t.second < 100

instance (t : DateTime) : Decidable (dtBounded t) := by
  rw [dtBounded]
  infer_instance

/-- The test singling out the line that starts the content in
`parseTxtNote`: not a recognized metadata label and not blank. -/
def txtContentLine (line : Str) : Bool :=
  !(startsWith line (str "Title:") || startsWith line (str "Tags:")
      || startsWith line (str "Created:") || startsWith line (str "Modified:"))
    && !line.isEmpty

/-- The metadata block `formatTxtNote` writes before the content. -/
def txtHeader (note : Note) : Str :=
  str "Title: " ++ note.title ++ str "\n"
    ++ str "Created: " ++ formatFullDT note.created ++ str "\n"
    ++ str "Modified: " ++ formatFullDT note.modified ++ str "\n"
    ++ (if note.tags.length > 0 then
          str "Tags: " ++ List.intercalate (str ", ") note.tags ++ str "\n"
        else [])
    ++ str "\n"

/-- The first line of a string (the head of its `\n`-split). -/
def firstLine (s : Str) : Str := (List.splitOn '\n' s).headD []

/-! Sanity checks of the embedding on concrete inputs. -/

example : trimSpace (str "  a b \t ") = str "a b" := by decide
example : startsWith (str "Title: x") (str "Title:") = true := by decide
example : endsWith (str "a.txt") (str ".txt") = true := by decide
example : trimLeading (str "Title: x") (str "Title:") = str " x" := by decide
example : trimTrailing (str "a.txt") (str ".txt") = str "a" := by decide
example : replaceAll (str "\\n") (str "\n") (str "a\\nb") = str "a\nb" := by decide
example : indexOfSub (str "Title: e\ne") (str "e") = some 4 := by decide
example : lastIndexChar ' ' (str "* Review :a:b:") = some 8 := by decide
example : fields (str " a  bc ") = [str "a", str "bc"] := by decide
example : List.splitOn '\n' (str "a\nb") = [str "a", str "b"] := by decide
example : List.splitOn '\n' ([] : Str) = [[]] := by decide
example : toSec ⟨1970, 1, 1, 0, 0, 1⟩ = 1 := by decide
example : toSec ⟨2024, 12, 1, 23, 59, 59⟩ + 1 = toSec ⟨2024, 12, 2, 0, 0, 0⟩ := by
  decide
example : formatCompact ⟨2024, 12, 1, 14, 30, 22⟩ = str "20241201_143022" := by
  decide
example : formatFullDT ⟨2024, 12, 1, 14, 30, 22⟩ = str "2024-12-01 14:30:22" := by
  decide
example : tryParseDateQuery (str "2024-12-01") = some ⟨2024, 12, 1, 0, 0, 0⟩ := by
  decide
example : tryParseDateQuery (str "2024-13-01") = none := by decide
example : tryParseDateQuery (str "2024-12-01 5:04:05") = some ⟨2024, 12, 1, 5, 4, 5⟩ := by
  decide
example : tryParseDateQuery (str "2024-12-01 15:04:05") = some ⟨2024, 12, 1, 15, 4, 5⟩ := by
  decide
example : tryParseDateQuery (str "01/02/2006") = some ⟨2006, 1, 2, 0, 0, 0⟩ := by
  decide
example : parseCompactTs (str "20241201_143022") = some ⟨2024, 12, 1, 14, 30, 22⟩ := by
  decide

/-! ## Counterexamples for the corrected claims -/

/-- Claim C1, counterexample: a note created exactly at midnight of the
queried day lies in the half-open window `[midnight, midnight + 24h)` claimed
for `SearchByDate`, yet the code (which uses the strict `After`) does not
return it: the window actually computed is open at its left end. -/
theorem c1_counterexample :
    searchByDate (str "2024-12-02")
        [Note.mk (str "n") (str "t") (str "c") ⟨2024, 12, 2, 0, 0, 0⟩
          ⟨2024, 12, 2, 0, 0, 0⟩ [] (str "txt") (str "n.txt")] = []
      ∧ tryParseDateQuery (toLowerStr (trimSpace (str "2024-12-02")))
          = some ⟨2024, 12, 2, 0, 0, 0⟩
      ∧ toSec ⟨2024, 12, 2, 0, 0, 0⟩ ≤ toSec ⟨2024, 12, 2, 0, 0, 0⟩
      ∧ toSec ⟨2024, 12, 2, 0, 0, 0⟩ < toSec ⟨2024, 12, 2, 0, 0, 0⟩ + 86400 := by
  decide

/-- Claim C2, counterexample: a directory with three well-formed plain notes
and one recognized-extension file holding unparseable garbage yields FOUR
notes from `ListNotes`, not three — per-file failure can only come from the
file read, never from its content, so the garbage file is decoded too. -/
theorem c2_counterexample :
    (listNotes
          [⟨str "a.txt", false, some (str "Title: A\n\nbody a")⟩,
           ⟨str "b.txt", false, some (str "Title: B\n\nbody b")⟩,
           ⟨str "c.txt", false, some (str "Title: C\n\nbody c")⟩,
           ⟨str "g.txt", false, some (str "@@@garbage@@@ ###")⟩]
          ⟨2024, 12, 1, 14, 30, 22⟩).map (fun n => n.filename)
      = [str "a.txt", str "b.txt", str "c.txt", str "g.txt"] := by
  decide

/-- Claim C3, counterexample: for title `"x"`, no tags and content `"e"` (one
line that carries no metadata label), the plain-dialect decode of the encode
does not reproduce the content: `strings.Index` finds the content line `"e"`
inside the word `"Title"`, so the returned content is
`"e: x\nCreated: …\nModified: …\n\ne"`. -/
theorem c3_counterexample :
    (List.splitOn '\n'
          (Note.mk (str "x") (str "x") (str "e") ⟨2024, 12, 1, 14, 30, 22⟩
            ⟨2024, 12, 1, 14, 30, 22⟩ [] (str "txt") (str "x.txt")).content).all
        (fun l =>
          !(startsWith l (str "Title:") || startsWith l (str "Tags:")
            || startsWith l (str "Created:") || startsWith l (str "Modified:")))
      ∧ (parseTxtNote
            (formatTxtNote
              (Note.mk (str "x") (str "x") (str "e") ⟨2024, 12, 1, 14, 30, 22⟩
                ⟨2024, 12, 1, 14, 30, 22⟩ [] (str "txt") (str "x.txt")))).2.1
          ≠ str "e" := by
  decide

/-- Claim C4, counterexample: for title `"t"`, no tags and directive-free
content `"hello"`, decoding the outline-dialect serialization returns content
`"* CONTENT\nhello"`, not `"hello"`: the `* CONTENT` header the serializer
writes is the first non-directive line, so it starts the decoded content. -/
theorem c4_counterexample :
    parseOrgNote
        (formatOrgNote
          (Note.mk (str "t") (str "t") (str "hello") ⟨2024, 12, 1, 14, 30, 22⟩
            ⟨2024, 12, 1, 14, 30, 22⟩ [] (str "org") (str "t.org")))
      = (str "t", str "* CONTENT\nhello", [])
      ∧ str "* CONTENT\nhello" ≠ str "hello" := by
  decide

/-- Claim C5, counterexample: on input `"Title: e\ne"` the first non-blank
non-label line is `"e"`, but the returned content is `"e: e\ne"`, not that
line and its successors verbatim — `strings.Index` locates the first
occurrence of `"e"` inside `"Title"`. -/
theorem c5_counterexample :
    parseTxtNote (str "Title: e\ne") = (str "e", str "e: e\ne", [])
      ∧ str "e: e\ne" ≠ str "e" := by
  decide

/-- Claim C6, counterexample: in `"hello\n#+TITLE: sneaky"` the content starts
at line 0, yet the `#+TITLE:` directive on the later line still overwrites the
returned title (the loop keeps matching directives after the content start),
so the title is `"sneaky"` instead of the empty title the claim implies. -/
theorem c6_counterexample :
    parseOrgNote (str "hello\n#+TITLE: sneaky")
      = (str "sneaky", str "hello\n#+TITLE: sneaky", [])
      ∧ str "sneaky" ≠ ([] : Str) := by
  decide

/-- Claim C7, counterexample: `'!'` is not among the ten characters
`sanitizeTitle` replaces, so the id for title `"Meeting Notes!"` keeps it:
the id is `"20241201_143022_meeting_notes!"`, not
`"20241201_143022_meeting_notes_"`, and it violates the claimed shape
`^\d{8}_\d{6}_[a-z0-9_]{1,50}$`. -/
theorem c7_counterexample :
    makeId ⟨2024, 12, 1, 14, 30, 22⟩ (str "Meeting Notes!")
        = str "20241201_143022_meeting_notes!"
      ∧ makeId ⟨2024, 12, 1, 14, 30, 22⟩ (str "Meeting Notes!")
          ≠ str "20241201_143022_meeting_notes_"
      ∧ '!' ∈ sanitizeTitle (str "Meeting Notes!")
      ∧ ¬(('a' ≤ '!' ∧ '!' ≤ 'z') ∨ '!'.isDigit = true ∨ '!' = '_') := by
  decide

/-- Claim C9, counterexample: `GetNote` matches by name-leading string with no
extension check, so the id `"READ"` selects the extensionless file `"README"`;
the loaded note has `filename = "README"`, `id = "README"`, `format = ""`,
and `filename ≠ id ++ "." ++ format`. -/
theorem c9_counterexample :
    getNote [⟨str "README", false, some (str "hello")⟩] (str "READ")
        ⟨2024, 1, 1, 0, 0, 0⟩
      = some (loadNote (str "README") (str "hello") ⟨2024, 1, 1, 0, 0, 0⟩)
      ∧ (loadNote (str "README") (str "hello") ⟨2024, 1, 1, 0, 0, 0⟩).filename
          ≠ (loadNote (str "README") (str "hello") ⟨2024, 1, 1, 0, 0, 0⟩).id
              ++ str "."
              ++ (loadNote (str "README") (str "hello") ⟨2024, 1, 1, 0, 0, 0⟩).format := by
  decide

/-! ## Helper lemmas about the string primitives -/

theorem startsWith_take (p : Str) : ∀ s : Str, startsWith s p = true ↔ s.take p.length = p := by
  induction p with
  | nil => intro s; simp [startsWith]
  | cons q ps ih =>
    intro s
    cases s with
    | nil => simp [startsWith]
    | cons c s =>
      simp only [startsWith, Bool.and_eq_true, beq_iff_eq, List.length_cons,
        List.take_succ_cons, List.cons.injEq, ih s]

theorem startsWith_iff_append {s p : Str} : startsWith s p = true ↔ ∃ t, s = p ++ t := by
  rw [startsWith_take]
  constructor
  · intro h
    refine ⟨s.drop p.length, ?_⟩
    conv_lhs => rw [← List.take_append_drop p.length s]
    rw [h]
  · rintro ⟨t, rfl⟩
    simp [List.take_append_of_le_length]

theorem startsWith_append_self (p t : Str) : startsWith (p ++ t) p = true :=
  startsWith_iff_append.mpr ⟨t, rfl⟩

theorem startsWith_append_left {a p : Str} (x : Str) (h : p.length ≤ a.length) :
    startsWith (a ++ x) p = startsWith a p := by
  have : (a ++ x).take p.length = a.take p.length := List.take_append_of_le_length h
  by_cases hs : startsWith a p = true
  · rw [hs]
    rw [startsWith_take] at hs ⊢
    rw [this, hs]
  · have hs' : ¬ startsWith (a ++ x) p = true := by
      rw [startsWith_take] at hs ⊢
      rw [this]; exact hs
    simp only [Bool.not_eq_true] at hs hs'
    rw [hs, hs']

theorem startsWith_map {s p : Str} (f : Char → Char) (h : startsWith s p = true) :
    startsWith (s.map f) (p.map f) = true := by
  rcases startsWith_iff_append.mp h with ⟨t, rfl⟩
  rw [List.map_append]
  exact startsWith_append_self _ _

theorem trimLeading_append (p t : Str) : trimLeading (p ++ t) p = t := by
  rw [trimLeading, if_pos (startsWith_append_self p t), List.drop_left]

theorem drop_of_startsWith {s p : Str} (h : startsWith s p = true) :
    s = p ++ s.drop p.length := by
  rcases startsWith_iff_append.mp h with ⟨t, rfl⟩
  simp [List.drop_left]

/-! ## Claim C10: GetNote selects the first name-leading match -/

/-- Claim C10: `GetNote` matches by filename leading string, not exact id: it
returns the first non-directory entry (in listing order) whose name has the
requested id as a leading string, loading that file; consequently, when one
id is a leading part of another note's name, `GetNote` — and `DeleteNote`,
which resolves through it — operates on that other note instead of reporting
not-found. -/
theorem c10_get_note_by_leading_match :
    (∀ (entries : List DirEntry) (id : Str) (now : DateTime),
        getNote entries id now
          = (entries.find? fun e => !e.isDir && startsWith e.name id).bind
              fun e => e.content.map (loadNote e.name · now))
      ∧ ∀ (id₁ id₂ ext c : Str) (now : DateTime),
          startsWith id₂ id₁ = true →
            getNote [⟨id₂ ++ ext, false, some c⟩] id₁ now
                = some (loadNote (id₂ ++ ext) c now)
              ∧ deleteTarget [⟨id₂ ++ ext, false, some c⟩] id₁ now
                  = some (id₂ ++ ext) := by
  constructor
  · intro entries id now
    induction entries with
    | nil => rfl
    | cons e rest ih =>
      rw [getNote, List.find?]
      by_cases h : (!e.isDir && startsWith e.name id) = true
      · rw [if_pos h, h]
        rfl
      · rw [if_neg h, Bool.not_eq_true] at *
        rw [h, ih]
  · intro id₁ id₂ ext c now h
    have hname : startsWith (id₂ ++ ext) id₁ = true := by
      rcases startsWith_iff_append.mp h with ⟨t, rfl⟩
      rw [List.append_assoc]
      exact startsWith_append_self _ _
    constructor
    · rw [getNote, if_pos (by simp [hname])]
      rfl
    · rw [deleteTarget, getNote, if_pos (by simp [hname])]
      rfl

/-- Claim C10, witness: id `"note1"` is a leading part of the name
`"note1x.txt"`, and `GetNote`/`DeleteNote` with the short id select that
file. -/
theorem c10_get_note_by_leading_match_witness :
    getNote [⟨str "note1x" ++ str ".txt", false, some (str "Body")⟩]
        (str "note1") ⟨2024, 1, 1, 0, 0, 0⟩
        = some (loadNote (str "note1x" ++ str ".txt") (str "Body")
            ⟨2024, 1, 1, 0, 0, 0⟩)
      ∧ deleteTarget [⟨str "note1x" ++ str ".txt", false, some (str "Body")⟩]
          (str "note1") ⟨2024, 1, 1, 0, 0, 0⟩
          = some (str "note1x" ++ str ".txt") :=
  c10_get_note_by_leading_match.2 (str "note1") (str "note1x") (str ".txt")
    (str "Body") ⟨2024, 1, 1, 0, 0, 0⟩ (by decide)

/-! ## Claim C2 (amended): listing skips exactly the unreadable files -/

/-- Claim C2 (amended): decoding a note file's content never fails, so
`ListNotes` returns one note — in order — for every non-directory entry with
a recognized extension whose read succeeds, whatever its content; only files
whose read fails are skipped.  For the claimed directory of 3 well-formed
files and 1 readable garbage file it therefore returns 4 notes, not 3. -/
theorem c2_list_skips_only_unreadable (entries : List DirEntry) (now : DateTime) :
    (listNotes entries now).map (fun n => n.filename)
      = (entries.filter fun e => !e.isDir && recognizedExt e.name
          && e.content.isSome).map (fun e => e.name) := by
  induction entries with
  | nil => rfl
  | cons e rest ih =>
    by_cases hp : (!e.isDir && recognizedExt e.name) = true
    · cases hc : e.content with
      | none =>
        rw [listNotes, if_pos hp, hc, List.filter_cons,
          if_neg (by rw [hc]; simp), ih]
      | some c =>
        rw [listNotes, if_pos hp, hc, List.filter_cons,
          if_pos (by rw [hc]; simp [hp]), List.map_cons, List.map_cons, ih]
        rfl
    · rw [listNotes, if_neg hp, List.filter_cons,
        if_neg (by simp only [Bool.not_eq_true] at hp; simp [hp]), ih]

/-! ## Digit strings -/

theorem digitChar_isDigit (d : Nat) : (digitChar d).isDigit = true := by
  unfold digitChar
  split <;> decide

theorem isDigit_mem_padNum {w n : Nat} {c : Char} (h : c ∈ padNum w n) :
    c.isDigit = true := by
  rw [padNum] at h
  rcases List.mem_append.mp h with h | h
  · rw [List.eq_of_mem_replicate h]
    decide
  · rcases List.mem_map.mp h with ⟨d, _, rfl⟩
    exact digitChar_isDigit d

theorem isDigit_ne_newline {c : Char} (h : c.isDigit = true) : c ≠ '\n' := by
  intro he
  subst he
  exact absurd h (by decide)

theorem newline_not_mem_padNum {w n : Nat} : '\n' ∉ padNum w n := fun h =>
  isDigit_ne_newline (isDigit_mem_padNum h) rfl

theorem natToDigitsGo_length_le {w : Nat} (hw : 1 ≤ w) :
    ∀ (fuel n : Nat), n < 10 ^ w → (natToDigitsGo fuel n).length ≤ w := by
  intro fuel
  induction fuel generalizing w with
  | zero => intro n _; simpa [natToDigitsGo] using hw
  | succ fuel ih =>
    intro n hn
    rw [natToDigitsGo]
    by_cases h : n < 10
    · simpa [h] using hw
    · rw [if_neg h]
      have hw2 : 2 ≤ w := by
        by_contra hw2
        interval_cases w
        omega
      have hdiv : n / 10 < 10 ^ (w - 1) := by
        rw [Nat.div_lt_iff_lt_mul (by omega)]
        calc n < 10 ^ w := hn
        _ = 10 ^ (w - 1) * 10 := by
          conv_lhs => rw [show w = (w - 1) + 1 by omega]
          rw [Nat.pow_succ]
      have := ih (w := w - 1) (by omega) (n / 10) hdiv
      simp only [List.length_append, List.length_cons, List.length_nil]
      omega

theorem padNum_length {w n : Nat} (hw : 1 ≤ w) (hn : n < 10 ^ w) :
    (padNum w n).length = w := by
  rw [padNum]
  have h2 : (natToDigits n).length ≤ w := natToDigitsGo_length_le hw n n hn
  simp only [List.length_append, List.length_replicate, List.length_map]
  omega

/-! ## Character case lemmas -/

theorem toNat_ofNat_valid {n : Nat} (h : n.isValidChar) :
    (Char.ofNat n).toNat = n := by
  rw [Char.ofNat, dif_pos h]
  rfl

theorem toLower_not_upper (c : Char) :
    ¬(65 ≤ (Char.toLower c).toNat ∧ (Char.toLower c).toNat ≤ 90) := by
  rw [Char.toLower]
  by_cases h : Char.toNat c ≥ 65 ∧ Char.toNat c ≤ 90
  · rw [if_pos h]
    have hv : (Char.toNat c + 32).isValidChar := Or.inl (by omega)
    rw [toNat_ofNat_valid hv]
    omega
  · rw [if_neg h]
    omega

theorem mem_replaceChar {a b c : Char} {s : Str} (h : c ∈ replaceChar a b s) :
    c = b ∨ (c ∈ s ∧ c ≠ a) := by
  rw [replaceChar] at h
  rcases List.mem_map.mp h with ⟨x, hx, rfl⟩
  by_cases hxa : (x == a) = true
  · left
    simp [hxa]
  · right
    simp only [hxa, if_neg, ite_false]
    exact ⟨hx, by simpa using hxa⟩

theorem mem_foldl_replace_sub {l : List Char} {t : Str} {c : Char}
    (h : c ∈ l.foldl (fun s a => replaceChar a '_' s) t) : c = '_' ∨ c ∈ t := by
  induction l generalizing t with
  | nil => exact Or.inr h
  | cons a ls ih =>
    rw [List.foldl_cons] at h
    rcases ih h with h' | h'
    · exact Or.inl h'
    · rcases mem_replaceChar h' with h'' | h''
      · exact Or.inl h''
      · exact Or.inr h''.1

theorem mem_foldl_replace_ne {l : List Char} {t : Str} {c : Char}
    (hl : '_' ∉ l) (h : c ∈ l.foldl (fun s a => replaceChar a '_' s) t) :
    ∀ a ∈ l, c ≠ a := by
  induction l generalizing t with
  | nil => intro a ha; exact absurd ha (List.not_mem_nil a)
  | cons a ls ih =>
    rw [List.foldl_cons] at h
    intro b hb
    rcases List.mem_cons.mp hb with rfl | hb'
    · have hbu : b ≠ '_' := fun he => hl (he ▸ List.mem_cons_self b ls)
      rcases mem_foldl_replace_sub h with rfl | h'
      · exact fun he => hbu he.symm
      · rcases mem_replaceChar h' with rfl | h''
        · exact fun he => hbu he.symm
        · exact h''.2
    · exact ih (fun hm => hl (List.mem_cons_of_mem a hm)) h b hb'

/-- Characters of `sanitizeTitle`'s output: never one of the ten replaced
characters, and never an uppercase ASCII letter. -/
theorem sanitizeTitle_chars {title : Str} {c : Char} (h : c ∈ sanitizeTitle title) :
    (∀ a ∈ unsafeChars, c ≠ a) ∧ ¬(65 ≤ c.toNat ∧ c.toNat ≤ 90) := by
  have hs : c ∈ substLower title := by
    rw [sanitizeTitle] at h
    by_cases h50 : 50 < (substLower title).length
    · rw [if_pos h50] at h
      exact List.mem_of_mem_take h
    · rwa [if_neg h50] at h
  rw [substLower, toLowerStr] at hs
  rcases List.mem_map.mp hs with ⟨x, hx, rfl⟩
  refine ⟨?_, toLower_not_upper x⟩
  intro a ha
  have hxa := mem_foldl_replace_ne (by decide) hx a ha
  have hau : ¬(97 ≤ a.toNat ∧ a.toNat ≤ 122) := by
    fin_cases ha <;> decide
  rw [Char.toLower]
  by_cases hup : Char.toNat x ≥ 65 ∧ Char.toNat x ≤ 90
  · rw [if_pos hup]
    intro he
    have hv : (Char.toNat x + 32).isValidChar := Or.inl (by omega)
    have : (Char.ofNat (Char.toNat x + 32)).toNat = Char.toNat x + 32 :=
      toNat_ofNat_valid hv
    rw [he] at this
    omega
  · rw [if_neg hup]
    exact hxa

/-! ## Shape of the generated identifier -/

theorem formatCompact_split (t : DateTime) :
    formatCompact t
      = (padNum 4 t.year ++ (padNum 2 t.month ++ padNum 2 t.day))
          ++ (str "_"
            ++ (padNum 2 t.hour ++ (padNum 2 t.minute ++ padNum 2 t.second))) := by
  simp [formatCompact, List.append_assoc]

theorem padNum_length_two {n : Nat} (hn : n < 100) : (padNum 2 n).length = 2 :=
  padNum_length (by norm_num) (by norm_num; omega)

theorem formatCompact_head_length {t : DateTime} (hb : dtBounded t) :
    (padNum 4 t.year ++ (padNum 2 t.month ++ padNum 2 t.day)).length = 8 := by
  obtain ⟨hy, hmo, hd, _, _, _⟩ := hb
  have l4 : (padNum 4 t.year).length = 4 := padNum_length (by norm_num) (by norm_num; omega)
  simp [l4, padNum_length_two hmo, padNum_length_two hd]

theorem formatCompact_length {t : DateTime} (hb : dtBounded t) :
    (formatCompact t).length = 15 := by
  obtain ⟨hy, hmo, hd, hh, hmi, hs⟩ := hb
  have l4 : (padNum 4 t.year).length = 4 := padNum_length (by norm_num) (by norm_num; omega)
  simp [formatCompact, l4, padNum_length_two, hmo, hd, hh, hmi, hs, str]

theorem all_digits_append {u v : Str} (hu : u.all Char.isDigit = true)
    (hv : v.all Char.isDigit = true) : (u ++ v).all Char.isDigit = true := by
  rw [List.all_eq_true] at *
  intro c hc
  rcases List.mem_append.mp hc with h | h
  · exact hu c h
  · exact hv c h

theorem padNum_all_digits (w n : Nat) : (padNum w n).all Char.isDigit = true := by
  rw [List.all_eq_true]
  intro c hc
  exact isDigit_mem_padNum hc

theorem sanitizeTitle_length_le (title : Str) : (sanitizeTitle title).length ≤ 50 := by
  rw [sanitizeTitle]
  split
  · simp
  · omega

/-- Claim C7 (amended): `'!'` is not replaced, so
`id(title="Meeting Notes!", created=2024-12-01T14:30:22)` is
`"20241201_143022_meeting_notes!"`; in general an id is
`\d{8}_\d{6}_` followed by the sanitized title — at most 50 characters, free
of the ten replaced characters and of uppercase ASCII letters, but not
restricted to `[a-z0-9_]` and possibly empty. -/
theorem c7_id_shape :
    makeId ⟨2024, 12, 1, 14, 30, 22⟩ (str "Meeting Notes!")
        = str "20241201_143022_meeting_notes!"
      ∧ ∀ (now : DateTime) (title : Str), dtBounded now →
          makeId now title = formatCompact now ++ str "_" ++ sanitizeTitle title
            ∧ (formatCompact now).length = 15
            ∧ ((formatCompact now).take 8).all Char.isDigit = true
            ∧ ((formatCompact now).drop 8).take 1 = str "_"
            ∧ ((formatCompact now).drop 9).all Char.isDigit = true
            ∧ ((formatCompact now).drop 9).length = 6
            ∧ (sanitizeTitle title).length ≤ 50
            ∧ ∀ c ∈ sanitizeTitle title,
                (∀ a ∈ unsafeChars, c ≠ a) ∧ ¬(65 ≤ c.toNat ∧ c.toNat ≤ 90) := by
  refine ⟨by decide, ?_⟩
  intro now title hb
  obtain ⟨hy, hmo, hd, hh, hmi, hs⟩ := hb
  have hdrop8 : (formatCompact now).drop 8
      = str "_" ++ (padNum 2 now.hour ++ (padNum 2 now.minute ++ padNum 2 now.second)) := by
    rw [formatCompact_split,
      List.drop_left' (formatCompact_head_length ⟨hy, hmo, hd, hh, hmi, hs⟩)]
  have hdrop9 : (formatCompact now).drop 9
      = padNum 2 now.hour ++ (padNum 2 now.minute ++ padNum 2 now.second) := by
    have h9 : (9 : Nat) = 8 + 1 := by norm_num
    rw [h9, ← List.drop_drop, hdrop8, List.drop_left' (by decide)]
  refine ⟨rfl, formatCompact_length ⟨hy, hmo, hd, hh, hmi, hs⟩, ?_, ?_, ?_, ?_,
    sanitizeTitle_length_le title, fun c hc => sanitizeTitle_chars hc⟩
  · rw [formatCompact_split,
      List.take_left' (formatCompact_head_length ⟨hy, hmo, hd, hh, hmi, hs⟩)]
    exact all_digits_append (padNum_all_digits 4 now.year)
      (all_digits_append (padNum_all_digits 2 now.month) (padNum_all_digits 2 now.day))
  · rw [hdrop8]
    rfl
  · rw [hdrop9]
    exact all_digits_append (padNum_all_digits 2 now.hour)
      (all_digits_append (padNum_all_digits 2 now.minute) (padNum_all_digits 2 now.second))
  · rw [hdrop9]
    simp [padNum_length_two, hh, hmi, hs]

/-- Claim C7, witness: the general shape statement applied to the example
timestamp and title. -/
theorem c7_id_shape_witness :
    makeId ⟨2024, 12, 1, 14, 30, 22⟩ (str "Meeting Notes!")
        = formatCompact ⟨2024, 12, 1, 14, 30, 22⟩ ++ str "_"
            ++ sanitizeTitle (str "Meeting Notes!")
      ∧ (formatCompact ⟨2024, 12, 1, 14, 30, 22⟩).length = 15 := by
  have h := c7_id_shape.2 ⟨2024, 12, 1, 14, 30, 22⟩ (str "Meeting Notes!")
    (by decide)
  exact ⟨h.1, h.2.1⟩

/-- Claim C8: a title whose sanitized (substituted and lowercased) form
exceeds 50 characters yields an id whose title segment — the part after the
15-character timestamp and its separating underscore — is exactly 50
characters: the truncation applies to the sanitized string. -/
theorem c8_truncation (title : Str) (now : DateTime)
    (h50 : 50 < (substLower title).length) (hb : dtBounded now) :
    sanitizeTitle title = (substLower title).take 50
      ∧ (sanitizeTitle title).length = 50
      ∧ (makeId now title).drop 16 = sanitizeTitle title
      ∧ ((makeId now title).drop 16).length = 50 := by
  have hsan : sanitizeTitle title = (substLower title).take 50 := by
    rw [sanitizeTitle, if_pos h50]
  have hlen : (sanitizeTitle title).length = 50 := by
    rw [hsan, List.length_take]
    omega
  have hdrop : (makeId now title).drop 16 = sanitizeTitle title := by
    rw [makeId, List.append_assoc]
    have h16 : (16 : Nat) = 15 + 1 := by norm_num
    rw [h16, ← List.drop_drop, List.drop_left' (formatCompact_length hb),
      List.drop_left' (by decide)]
  exact ⟨hsan, hlen, hdrop, by rw [hdrop, hlen]⟩

/-- Claim C8, witness: a 51-`a` title sanitizes to 51 characters and its id's
title segment has exactly 50. -/
theorem c8_truncation_witness :
    50 < (substLower (List.replicate 51 'a')).length
      ∧ ((makeId ⟨2024, 12, 1, 14, 30, 22⟩ (List.replicate 51 'a')).drop 16).length
          = 50 :=
  ⟨by decide,
    (c8_truncation (List.replicate 51 'a') ⟨2024, 12, 1, 14, 30, 22⟩ (by decide)
        (by decide)).2.2.2⟩

/-! ## Claim C9: the filename/id/format invariant -/

theorem lastIndexChar_isSome {c : Char} {s : Str} (h : c ∈ s) :
    ∃ i, lastIndexChar c s = some i := by
  cases hf : s.reverse.findIdx? (· == c) with
  | none =>
    have := List.findIdx?_eq_none_iff.mp hf c (List.mem_reverse.mpr h)
    simp at this
  | some j => exact ⟨s.length - 1 - j, by rw [lastIndexChar, hf]⟩

theorem lastIndexChar_spec {c : Char} {s : Str} {i : Nat}
    (h : lastIndexChar c s = some i) : ∃ hi : i < s.length, s.get ⟨i, hi⟩ = c := by
  rw [lastIndexChar] at h
  cases hf : s.reverse.findIdx? (· == c) with
  | none => rw [hf] at h; exact absurd h (by simp)
  | some j =>
    rw [hf] at h
    obtain ⟨hj, hp, _⟩ := List.findIdx?_eq_some_iff_getElem.mp hf
    rw [List.length_reverse] at hj
    have hi : s.length - 1 - j < s.length := by omega
    have heq : i = s.length - 1 - j := by
      simpa using h.symm
    subst heq
    refine ⟨hi, ?_⟩
    have := List.getElem_reverse (l := s) (i := j) (by rwa [List.length_reverse])
    rw [List.get_eq_getElem, ← this]
    simpa using hp

theorem fileExt_of_dot {name : Str} (h : '.' ∈ name) :
    ∃ i, ∃ hi : i < name.length,
      fileExt name = '.' :: name.drop (i + 1)
        ∧ name = name.take i ++ '.' :: name.drop (i + 1) := by
  obtain ⟨i, hli⟩ := lastIndexChar_isSome h
  obtain ⟨hi, hget⟩ := lastIndexChar_spec hli
  have hdrop : name.drop i = '.' :: name.drop (i + 1) := by
    rw [List.drop_eq_getElem_cons hi]
    rw [List.get_eq_getElem] at hget
    rw [hget]
  refine ⟨i, hi, ?_, ?_⟩
  · rw [fileExt, hli]
    exact hdrop
  · conv_lhs => rw [← List.take_append_drop i name]
    rw [hdrop]

/-- Any loaded file whose name contains a dot satisfies the
filename = id + "." + format invariant. -/
theorem loadNote_filename_eq {name content : Str} {now : DateTime}
    (h : '.' ∈ name) :
    (loadNote name content now).filename
      = (loadNote name content now).id ++ str "."
          ++ (loadNote name content now).format := by
  obtain ⟨i, hi, hext, hsplit⟩ := fileExt_of_dot h
  have hfile : (loadNote name content now).filename = name := rfl
  have hid : (loadNote name content now).id = trimTrailing name (fileExt name) := rfl
  have hfmt : (loadNote name content now).format
      = trimLeading (fileExt name) (str ".") := rfl
  have hfmt2 : trimLeading (fileExt name) (str ".") = name.drop (i + 1) := by
    rw [hext]
    have : startsWith ('.' :: name.drop (i + 1)) (str ".") = true := by
      simp [startsWith, str]
    rw [trimLeading, if_pos this]
    simp [str]
  have hrev : name.reverse
      = ('.' :: name.drop (i + 1)).reverse ++ (name.take i).reverse := by
    conv_lhs => rw [hsplit]
    rw [List.reverse_append]
  have hends : endsWith name (fileExt name) = true := by
    rw [endsWith, hext, hrev]
    exact startsWith_append_self _ _
  have hlen : (fileExt name).length = name.length - i := by
    rw [hext]
    simp only [List.length_cons, List.length_drop]
    omega
  have hid2 : trimTrailing name (fileExt name) = name.take i := by
    rw [trimTrailing, if_pos hends, hlen]
    have : name.length - (name.length - i) = i := by omega
    rw [this]
  rw [hfile, hid, hfmt, hfmt2, hid2]
  conv_lhs => rw [hsplit]
  simp [str]

theorem dot_mem_of_endsWith {name sfx : Str} (hdot : '.' ∈ sfx)
    (h : endsWith name sfx = true) : '.' ∈ name := by
  rw [endsWith] at h
  rcases startsWith_iff_append.mp h with ⟨t, ht⟩
  have : '.' ∈ name.reverse := by
    rw [ht]
    exact List.mem_append_left t (List.mem_reverse.mpr hdot)
  exact List.mem_reverse.mp this

theorem dot_mem_of_recognizedExt {name : Str} (h : recognizedExt name = true) :
    '.' ∈ name := by
  rw [recognizedExt, Bool.or_eq_true, Bool.or_eq_true] at h
  rcases h with (h | h) | h
  · exact dot_mem_of_endsWith (by decide) h
  · exact dot_mem_of_endsWith (by decide) h
  · exact dot_mem_of_endsWith (by decide) h

/-- Claim C9 (amended): the invariant `filename = id ++ "." ++ format` holds
for every note `CreateNote` constructs and for every note produced by
`ListNotes` (and hence by the searches built on it), and more generally for
any loaded file whose name contains a dot; `GetNote`'s extension-free name
matching, however, can load a dotless file, for which `format` is empty and
`filename ≠ id ++ "." ++ format` (see the counterexample). -/
theorem c9_filename_invariant :
    (∀ (now : DateTime) (title content : Str) (tags : List Str) (format : Str),
        (createNote now title content tags format).filename
          = (createNote now title content tags format).id ++ str "."
              ++ (createNote now title content tags format).format)
      ∧ (∀ (name content : Str) (now : DateTime), '.' ∈ name →
          (loadNote name content now).filename
            = (loadNote name content now).id ++ str "."
                ++ (loadNote name content now).format)
      ∧ ∀ (entries : List DirEntry) (now : DateTime) (n : Note),
          n ∈ listNotes entries now →
            n.filename = n.id ++ str "." ++ n.format := by
  refine ⟨fun _ _ _ _ _ => rfl, fun _ _ _ h => loadNote_filename_eq h, ?_⟩
  intro entries now n hmem
  induction entries with
  | nil => exact absurd hmem (List.not_mem_nil n)
  | cons e rest ih =>
    rw [listNotes] at hmem
    by_cases hp : (!e.isDir && recognizedExt e.name) = true
    · rw [if_pos hp] at hmem
      cases hc : e.content with
      | none => rw [hc] at hmem; exact ih hmem
      | some c =>
        rw [hc] at hmem
        rcases List.mem_cons.mp hmem with rfl | hmem'
        · exact loadNote_filename_eq
            (dot_mem_of_recognizedExt (Bool.and_elim_right hp))
        · exact ih hmem'
    · rw [if_neg hp] at hmem
      exact ih hmem

/-- Claim C9, witness: the invariant evaluated on a note listed from a
concrete directory. -/
theorem c9_filename_invariant_witness :
    (loadNote (str "a.txt") (str "Body") ⟨2024, 1, 1, 0, 0, 0⟩).filename
      = (loadNote (str "a.txt") (str "Body") ⟨2024, 1, 1, 0, 0, 0⟩).id ++ str "."
          ++ (loadNote (str "a.txt") (str "Body") ⟨2024, 1, 1, 0, 0, 0⟩).format :=
  c9_filename_invariant.2.2 [⟨str "a.txt", false, some (str "Body")⟩]
    ⟨2024, 1, 1, 0, 0, 0⟩ _ (by rw [listNotes, if_pos (by decide)]; exact List.mem_cons_self _ _)

/-! ## Claim C5: the plain-dialect content rule -/

theorem txtLoop_content (whole : Str) :
    ∀ (lines : List Str) (title : Str) (tags : List Str),
      (txtLoop whole lines title tags).2.1
        = match lines.find? txtContentLine with
          | some l =>
            (match indexOfSub whole l with
             | some i => trimSpace (whole.drop i)
             | none => [])
          | none => [] := by
  intro lines
  induction lines with
  | nil => intro title tags; rfl
  | cons line rest ih =>
    intro title tags
    rw [txtLoop]
    by_cases h1 : startsWith line (str "Title:") = true
    · rw [if_pos h1, List.find?_cons_of_neg _ (by simp [txtContentLine, h1]), ih]
    · rw [if_neg h1]
      by_cases h2 : startsWith line (str "Tags:") = true
      · rw [if_pos h2, List.find?_cons_of_neg _ (by simp [txtContentLine, h2]), ih]
      · rw [if_neg h2]
        by_cases h3 : (startsWith line (str "Created:")
            || startsWith line (str "Modified:")) = true
        · rw [if_pos h3,
            List.find?_cons_of_neg _ (by
              rw [Bool.or_eq_true] at h3
              rcases h3 with h | h <;> simp [txtContentLine, h]),
            ih]
        · rw [if_neg h3]
          simp only [Bool.or_eq_true, not_or, Bool.not_eq_true] at h3
          by_cases h4 : line = []
          · rw [if_pos h4,
              List.find?_cons_of_neg _ (by simp [txtContentLine, h4]), ih]
          · rw [if_neg h4,
              List.find?_cons_of_pos _ (by
                simp [txtContentLine, h1, h2, h3.1, h3.2, h4])]

/-- Claim C5 (amended): the first line that is not blank and not a recognized
case-sensitive metadata label does mark the start of content (single forward
scan, no backtracking), but the returned content is `TrimSpace` of the suffix
of the input starting at the first *substring occurrence* of that line in the
whole input — which can lie strictly before the line itself, as the
counterexample shows — rather than that line and the following lines
verbatim. -/
theorem c5_content_rule (input : Str) :
    (parseTxtNote input).2.1
      = match (List.splitOn '\n' input).find? txtContentLine with
        | some l =>
          (match indexOfSub input l with
           | some i => trimSpace (input.drop i)
           | none => [])
        | none => [] :=
  txtLoop_content input (List.splitOn '\n' input) [] []

/-! ## Trimming and line-splitting lemmas -/

theorem dropWhile_append_of_ne_nil {p : Char → Bool} {u : Str} (v : Str)
    (h : u.dropWhile p ≠ []) : (u ++ v).dropWhile p = u.dropWhile p ++ v := by
  induction u with
  | nil => exact absurd rfl h
  | cons c u ih =>
    by_cases hc : p c = true
    · rw [List.cons_append, List.dropWhile_cons_of_pos hc,
        List.dropWhile_cons_of_pos hc]
      rw [List.dropWhile_cons_of_pos hc] at h
      exact ih h
    · rw [Bool.not_eq_true] at hc
      rw [List.cons_append, List.dropWhile_cons_of_neg (by simp [hc]),
        List.dropWhile_cons_of_neg (by simp [hc]), List.cons_append]

theorem trimLeft_cons_of_not {c : Char} {s : Str} (h : goIsSpace c = false) :
    trimLeft (c :: s) = c :: s := by
  rw [trimLeft, List.dropWhile_cons_of_neg (by simp [h])]

theorem trimLeft_cons_of_space {c : Char} {s : Str} (h : goIsSpace c = true) :
    trimLeft (c :: s) = trimLeft s := by
  rw [trimLeft, List.dropWhile_cons_of_pos h, trimLeft]

theorem trimRight_eq_iff_reverse {t : Str} :
    trimRight t = t ↔ t.reverse.dropWhile goIsSpace = t.reverse := by
  rw [trimRight]
  constructor
  · intro h
    have := congrArg List.reverse h
    rwa [List.reverse_reverse] at this
  · intro h
    rw [h, List.reverse_reverse]

theorem trimRight_append {a t : Str} (h : trimRight t = t) (hne : t ≠ []) :
    trimRight (a ++ t) = a ++ t := by
  have hrev : t.reverse.dropWhile goIsSpace = t.reverse :=
    trimRight_eq_iff_reverse.mp h
  have hrevne : t.reverse.dropWhile goIsSpace ≠ [] := by
    rw [hrev]
    simpa using hne
  rw [trimRight, List.reverse_append, dropWhile_append_of_ne_nil _ hrevne, hrev,
    List.reverse_append, List.reverse_reverse, List.reverse_reverse]

/-- Applying `TrimSpace` to a string with a non-space first character and a
trim-stable non-empty tail changes nothing. -/
theorem trimSpace_no_op {c : Char} {mid t : Str} (hc : goIsSpace c = false)
    (ht : trimRight t = t) (hne : t ≠ []) :
    trimSpace (c :: (mid ++ t)) = c :: (mid ++ t) := by
  rw [trimSpace, trimLeft_cons_of_not hc, ← List.cons_append,
    trimRight_append ht hne, List.cons_append]

theorem trimSpace_cons_space {s : Str} : trimSpace (' ' :: s) = trimSpace s := by
  rw [trimSpace, trimLeft_cons_of_space (by decide)]
  rfl

theorem trimRight_of_getLast {t : Str}
    (h : ∀ c, t.getLast? = some c → goIsSpace c = false) : trimRight t = t := by
  rw [trimRight]
  cases hr : t.reverse with
  | nil =>
    have : t = [] := by simpa using congrArg List.reverse hr
    rw [this]
    rfl
  | cons c r =>
    have hc : t.getLast? = some c := by
      rw [← List.head?_reverse, hr]
      rfl
    rw [List.dropWhile_cons_of_neg (by simp [h c hc]), ← hr, List.reverse_reverse]

theorem dropWhile_append_of_nil {p : Char → Bool} {u : Str} (v : Str)
    (h : u.dropWhile p = []) : (u ++ v).dropWhile p = v.dropWhile p := by
  induction u with
  | nil => rfl
  | cons c u ih =>
    by_cases hc : p c = true
    · rw [List.dropWhile_cons_of_pos hc] at h
      rw [List.cons_append, List.dropWhile_cons_of_pos hc]
      exact ih h
    · rw [List.dropWhile_cons_of_neg (by simp_all)] at h
      exact absurd h (by simp)

theorem dropWhile_idem {p : Char → Bool} (l : Str) :
    (l.dropWhile p).dropWhile p = l.dropWhile p := by
  induction l with
  | nil => rfl
  | cons c r ih =>
    by_cases hc : p c = true
    · rw [List.dropWhile_cons_of_pos hc]
      exact ih
    · rw [List.dropWhile_cons_of_neg hc, List.dropWhile_cons_of_neg hc]

theorem trimLeft_idem (s : Str) : trimLeft (trimLeft s) = trimLeft s :=
  dropWhile_idem s

theorem trimRight_idem (s : Str) : trimRight (trimRight s) = trimRight s := by
  rw [trimRight, trimRight, List.reverse_reverse, dropWhile_idem]

theorem cons_of_trimLeft_self {c : Char} {r : Str} (h : trimLeft (c :: r) = c :: r) :
    goIsSpace c = false := by
  by_contra hc
  rw [Bool.not_eq_false] at hc
  rw [trimLeft_cons_of_space hc] at h
  have hle := (List.dropWhile_sublist (p := goIsSpace) (l := r)).length_le
  rw [trimLeft] at h
  have := congrArg List.length h
  simp only [List.length_cons] at this
  omega

theorem trimLeft_trimRight_of_stable {v : Str} (h : trimLeft v = v) :
    trimLeft (trimRight v) = trimRight v := by
  cases v with
  | nil => rfl
  | cons c r =>
    have hc : goIsSpace c = false := cons_of_trimLeft_self h
    rw [trimRight, List.reverse_cons]
    by_cases hr : r.reverse.dropWhile goIsSpace = []
    · rw [dropWhile_append_of_nil _ hr,
        List.dropWhile_cons_of_neg (by simp [hc])]
      simp only [List.reverse_cons, List.reverse_nil, List.nil_append]
      exact trimLeft_cons_of_not hc
    · rw [dropWhile_append_of_ne_nil _ hr, List.reverse_append]
      simp only [List.reverse_cons, List.reverse_nil, List.nil_append,
        List.singleton_append]
      exact trimLeft_cons_of_not hc

theorem trimSpace_idem (s : Str) : trimSpace (trimSpace s) = trimSpace s := by
  rw [trimSpace, trimSpace, trimLeft_trimRight_of_stable (trimLeft_idem s),
    trimRight_idem]

theorem startsWith_trans {s p q : Str} (h1 : startsWith s p = true)
    (h2 : startsWith p q = true) : startsWith s q = true := by
  rcases startsWith_iff_append.mp h1 with ⟨a, rfl⟩
  rcases startsWith_iff_append.mp h2 with ⟨b, rfl⟩
  rw [List.append_assoc]
  exact startsWith_append_self _ _

theorem splitOn_newline_append {a : Str} (rest : Str) (h : '\n' ∉ a) :
    List.splitOn '\n' (a ++ '\n' :: rest) = a :: List.splitOn '\n' rest := by
  simp only [List.splitOn]
  refine List.splitOnP_first _ a ?_ '\n' (by simp) rest
  intro x hx
  simp only [beq_iff_eq, Bool.not_eq_true, ← Bool.not_eq_true, beq_iff_eq]
  intro he
  exact absurd (he ▸ hx) h

theorem splitOn_no_newline {a : Str} (h : '\n' ∉ a) :
    List.splitOn '\n' a = [a] := by
  simp only [List.splitOn]
  refine List.splitOnP_eq_single _ a ?_
  intro x hx
  simp only [beq_iff_eq, Bool.not_eq_true, ← Bool.not_eq_true, beq_iff_eq]
  intro he
  exact absurd (he ▸ hx) h

/-! ## Evaluating one step of the outline-parser loop -/

theorem not_directive_of_not_hash {line : Str}
    (h : startsWith (toUpperStr line) (str "#") = false) :
    startsWith (toUpperStr line) (str "#+TITLE:") = false
      ∧ startsWith (toUpperStr line) (str "#+FILETAGS:") = false
      ∧ startsWith (toUpperStr line) (str "#+TAGS:") = false
      ∧ startsWith line (str "#+") = false := by
  have k : ∀ p : Str, startsWith p (str "#") = true →
      startsWith (toUpperStr line) p = false := by
    intro p hp
    by_contra hc
    rw [Bool.not_eq_false] at hc
    exact absurd (startsWith_trans hc hp) (by simp [h])
  refine ⟨k _ (by decide), k _ (by decide), k _ (by decide), ?_⟩
  by_contra hc
  rw [Bool.not_eq_false] at hc
  have hm := startsWith_map Char.toUpper hc
  have h2 : (str "#+").map Char.toUpper = str "#+" := by decide
  rw [h2] at hm
  have h3 : startsWith (toUpperStr line) (str "#+") = true := hm
  have h4 : startsWith (toUpperStr line) (str "#") = true :=
    startsWith_trans h3 (by decide)
  exact absurd h4 (by simp [h])

/-- A line that (after trimming) neither starts with `#` (case-insensitively)
nor with `*` leaves title and tags alone; it only claims the content start
when that is still unset and the line is not blank. -/
theorem orgStep_inert {raw : Str} (i : Nat) (st : OrgState)
    (h1 : startsWith (toUpperStr (trimSpace raw)) (str "#") = false)
    (h2 : startsWith (trimSpace raw) (str "*") = false) :
    orgStep i raw st
      = ⟨st.title, st.tagAcc,
          match st.contentStart with
          | some j => some j
          | none => if trimSpace raw = [] then none else some i⟩ := by
  obtain ⟨hT, hF, hG, hH⟩ := not_directive_of_not_hash h1
  rw [orgStep]
  simp only [hT, hF, hG, Bool.false_eq_true, if_false, headingTags, h2,
    trimSpace_idem, hH]

/-- Processing any number of inert lines after the content start has been
found changes nothing. -/
theorem orgLoop_inert {lines : List Str} {st : OrgState} {j : Nat}
    (hst : st.contentStart = some j)
    (h : ∀ l ∈ lines, startsWith (toUpperStr (trimSpace l)) (str "#") = false
          ∧ startsWith (trimSpace l) (str "*") = false) :
    ∀ i, orgLoop i lines st = st := by
  induction lines with
  | nil => intro i; rfl
  | cons l rest ih =>
    intro i
    obtain ⟨ti, ta, cs⟩ := st
    have hst' : cs = some j := hst
    subst hst'
    rw [orgLoop, orgStep_inert i _ (h l (List.mem_cons_self l rest)).1
      (h l (List.mem_cons_self l rest)).2]
    exact ih (fun x hx => h x (List.mem_cons_of_mem l hx)) (i + 1)

/-- An `#+TITLE:` directive line with a non-empty trim-stable payload
overwrites the title, whatever came before. -/
theorem orgStep_title {t : Str} (i : Nat) (st : OrgState)
    (ht1 : trimLeft t = t) (ht2 : trimRight t = t) (hne : t ≠ []) :
    orgStep i (str "#+TITLE: " ++ t) st = ⟨t, st.tagAcc, st.contentStart⟩ := by
  have hshape : str "#+TITLE: " ++ t = '#' :: (str "+TITLE: " ++ t) := rfl
  have htrim : trimSpace (str "#+TITLE: " ++ t) = str "#+TITLE: " ++ t := by
    rw [hshape]
    exact trimSpace_no_op (by decide) ht2 hne
  have hupper : toUpperStr (trimSpace (str "#+TITLE: " ++ t))
      = str "#+TITLE: " ++ toUpperStr t := by
    rw [htrim, toUpperStr, List.map_append]
    have : (str "#+TITLE: ").map Char.toUpper = str "#+TITLE: " := by decide
    rw [this, toUpperStr]
  have hsplit2 : ∀ u : Str, str "#+TITLE: " ++ u = str "#+TITLE:" ++ (' ' :: u) :=
    fun u => rfl
  have hcond : startsWith (toUpperStr (trimSpace (str "#+TITLE: " ++ t)))
      (str "#+TITLE:") = true := by
    rw [hupper, hsplit2]
    exact startsWith_append_self _ _
  have hdrop : (trimSpace (str "#+TITLE: " ++ t)).drop (str "#+TITLE:").length
      = ' ' :: t := by
    rw [htrim, hsplit2, List.drop_left' (by decide)]
  have hmaybe : trimSpace ((trimSpace (str "#+TITLE: " ++ t)).drop
      (str "#+TITLE:").length) = t := by
    rw [hdrop, trimSpace_cons_space, trimSpace, ht1, ht2]
  rw [orgStep]
  simp only [hcond, if_true, hmaybe, hne, ite_not, if_neg hne]
  simp

/-- Once the content start index is set, no later line of the scan can change
it: every `orgStep` branch either leaves `contentStart` alone or keeps a
`some` value. -/
theorem orgStep_preserves_cs {i : Nat} {raw : Str} {st : OrgState} {j : Nat}
    (h : st.contentStart = some j) : (orgStep i raw st).contentStart = some j := by
  obtain ⟨ti, ta, cs⟩ := st
  have h2 : cs = some j := h
  subst h2
  rw [orgStep]
  split
  · rfl
  · split
    · rfl
    · split
      · rfl
      · rfl

/-- Running the rest of the scan, whatever its lines, keeps an already-found
content start. -/
theorem orgLoop_preserves_cs (lines : List Str) :
    ∀ (i : Nat) (st : OrgState) (j : Nat), st.contentStart = some j →
      (orgLoop i lines st).contentStart = some j := by
  induction lines with
  | nil => intro i st j h; exact h
  | cons l rest ih =>
    intro i st j h
    rw [orgLoop]
    exact ih (i + 1) _ j (orgStep_preserves_cs h)

/-- A concrete heading line with a trailing tag block: whatever the state, it
adds the block's two tags and claims the content start if still unset. -/
theorem orgStep_heading_review (i : Nat) (st : OrgState) :
    orgStep i (str "* Review :work:planning:") st
      = ⟨st.title,
          insertTag (insertTag st.tagAcc (str "work")) (str "planning"),
          match st.contentStart with
          | some j => some j
          | none => some i⟩ := by
  rw [orgStep]
  simp only [show trimSpace (str "* Review :work:planning:")
      = str "* Review :work:planning:" from by decide]
  simp only [show toUpperStr (str "* Review :work:planning:")
      = str "* REVIEW :WORK:PLANNING:" from by decide,
    show startsWith (str "* REVIEW :WORK:PLANNING:") (str "#+TITLE:") = false from
      by decide,
    show startsWith (str "* REVIEW :WORK:PLANNING:") (str "#+FILETAGS:") = false from
      by decide,
    show startsWith (str "* REVIEW :WORK:PLANNING:") (str "#+TAGS:") = false from
      by decide,
    Bool.false_eq_true, if_false]
  rw [show headingTags (str "* Review :work:planning:") st.tagAcc
      = insertTag (insertTag st.tagAcc (str "work")) (str "planning") from rfl]
  simp only [show startsWith (str "* Review :work:planning:") (str "#+") = false from
      by decide,
    eq_false (show (str "* Review :work:planning:" : Str) ≠ [] from by decide),
    if_false, Bool.false_eq_true]

/-! ## More string infrastructure for the round-trip proofs -/

theorem indexOfSub_eq_if (s sub : Str) :
    indexOfSub s sub =
      if startsWith s sub then some 0
      else
        match s with
        | [] => none
        | _ :: rest => (indexOfSub rest sub).map (· + 1) := by
  rw [indexOfSub.eq_def]

theorem indexOfSub_cons_none {c : Char} {s pat : Str} :
    indexOfSub (c :: s) pat = none
      ↔ startsWith (c :: s) pat = false ∧ indexOfSub s pat = none := by
  rw [indexOfSub]
  by_cases h : startsWith (c :: s) pat = true
  · simp [h]
  · rw [Bool.not_eq_true] at h
    simp [h]

theorem replaceAllGo_of_not_contains {pat new : Str} :
    ∀ (fuel : Nat) (s : Str), containsSub s pat = false →
      replaceAllGo pat new fuel s = s := by
  intro fuel
  induction fuel with
  | zero => intro s _; cases s <;> rfl
  | succ fuel ih =>
    intro s hs
    cases s with
    | nil => rfl
    | cons c rest =>
      cases hIdx : indexOfSub (c :: rest) pat with
      | some v =>
        rw [containsSub, hIdx] at hs
        exact absurd hs (by simp)
      | none =>
        rw [indexOfSub_cons_none] at hIdx
        rw [replaceAllGo, if_neg (by simp [hIdx.1])]
        rw [ih rest (by rw [containsSub, hIdx.2]; rfl)]

/-- Go's `strings.ReplaceAll` leaves a string without occurrences of the
nonempty pattern unchanged. -/
theorem replaceAll_of_not_contains {pat new s : Str}
    (h : containsSub s pat = false) : replaceAll pat new s = s :=
  replaceAllGo_of_not_contains s.length s h

/-- Go's `strings.Index` returns `k` when the pattern occurs at `k` and at no
earlier position. -/
theorem indexOfSub_eq_some_of {sub : Str} :
    ∀ (k : Nat) (s : Str), startsWith (s.drop k) sub = true →
      (∀ p, p < k → startsWith (s.drop p) sub = false) →
      indexOfSub s sub = some k := by
  intro k
  induction k with
  | zero =>
    intro s hocc _
    rw [indexOfSub_eq_if, if_pos (by simpa using hocc)]
  | succ k ih =>
    intro s hocc hbefore
    have h0 : startsWith s sub = false := by simpa using hbefore 0 (by omega)
    cases s with
    | nil =>
      exfalso
      cases sub with
      | nil => simp [startsWith] at h0
      | cons d ds => simp [startsWith, List.drop_nil] at hocc
    | cons c rest =>
      rw [indexOfSub, if_neg (by simp [h0])]
      rw [ih rest (by simpa using hocc)
        (fun p hp => by simpa using hbefore (p + 1) (by omega))]
      rfl

theorem intercalate_single (sep a : Str) : List.intercalate sep [a] = a := by
  simp [List.intercalate]

theorem intercalate_cons₂ (sep a b : Str) (r : List Str) :
    List.intercalate sep (a :: b :: r) = a ++ sep ++ List.intercalate sep (b :: r) := by
  simp [List.intercalate, List.intersperse]

theorem trimLeft_append {a : Str} (t : Str) (h : trimLeft a = a) (hne : a ≠ []) :
    trimLeft (a ++ t) = a ++ t := by
  cases a with
  | nil => exact absurd rfl hne
  | cons c r =>
    rw [List.cons_append]
    exact trimLeft_cons_of_not (cons_of_trimLeft_self h)

theorem newline_not_mem_formatYMD (t : DateTime) : '\n' ∉ formatYMD t := by
  intro h
  rw [formatYMD] at h
  simp only [List.mem_append] at h
  rcases h with (((h | h) | h) | h) | h
  · exact newline_not_mem_padNum h
  · revert h; decide
  · exact newline_not_mem_padNum h
  · revert h; decide
  · exact newline_not_mem_padNum h

theorem newline_not_mem_formatFullDT (t : DateTime) : '\n' ∉ formatFullDT t := by
  intro h
  rw [formatFullDT] at h
  simp only [List.mem_append] at h
  rcases h with (((((h | h) | h) | h) | h) | h) | h
  · exact newline_not_mem_formatYMD t h
  · revert h; decide
  · exact newline_not_mem_padNum h
  · revert h; decide
  · exact newline_not_mem_padNum h
  · revert h; decide
  · exact newline_not_mem_padNum h

theorem startsWith_label_false {pre lab : Str} (x : Str)
    (hlen : lab.length ≤ pre.length) (hb : startsWith pre lab = false) :
    startsWith (pre ++ x) lab = false := by
  rw [startsWith_append_left x hlen, hb]

theorem formatTxtNote_eq_header (note : Note) :
    formatTxtNote note
      = txtHeader note ++ replaceAll (str "\\n") (str "\n") note.content := rfl

/-- Round trip of the `Tags:` line through comma-splitting and trimming,
together with the facts about the joined tag string the header analysis
needs. -/
theorem tags_roundtrip (G : List Str) (hne : G ≠ [])
    (h : ∀ g ∈ G, g ≠ [] ∧ ',' ∉ g ∧ '\n' ∉ g ∧ trimLeft g = g ∧ trimRight g = g) :
    (List.splitOn ',' (List.intercalate (str ", ") G)).map trimSpace = G
      ∧ trimLeft (List.intercalate (str ", ") G) = List.intercalate (str ", ") G
      ∧ trimRight (List.intercalate (str ", ") G) = List.intercalate (str ", ") G
      ∧ '\n' ∉ List.intercalate (str ", ") G
      ∧ List.intercalate (str ", ") G ≠ [] := by
  induction G with
  | nil => exact absurd rfl hne
  | cons g G' ih =>
    have hg := h g (List.mem_cons_self g G')
    obtain ⟨hg1, hg2, hg3, hg4, hg5⟩ := hg
    have htrim : trimSpace g = g := by rw [trimSpace, hg4, hg5]
    cases G' with
    | nil =>
      rw [intercalate_single]
      refine ⟨?_, hg4, hg5, hg3, hg1⟩
      rw [List.splitOn, List.splitOnP_eq_single _ g (fun x hx => by
        simp only [beq_iff_eq, Bool.not_eq_true, ← Bool.not_eq_true, beq_iff_eq]
        intro he
        exact absurd (he ▸ hx) hg2)]
      simp [htrim]
    | cons g2 G'' =>
      have ih' := ih (by simp) (fun x hx => h x (List.mem_cons_of_mem g hx))
      obtain ⟨ihm, ihl, ihr, ihn, ihne⟩ := ih'
      have hshape : List.intercalate (str ", ") (g :: g2 :: G'')
          = g ++ ',' :: ' ' :: List.intercalate (str ", ") (g2 :: G'') := by
        rw [intercalate_cons₂, List.append_assoc]
        rfl
      rw [hshape]
      refine ⟨?_, ?_, ?_, ?_, ?_⟩
      · rw [List.splitOn,
          List.splitOnP_first _ g (fun x hx => by
            simp only [beq_iff_eq, Bool.not_eq_true, ← Bool.not_eq_true, beq_iff_eq]
            intro he
            exact absurd (he ▸ hx) hg2) ',' (by simp) _]
        rw [List.splitOnP_cons, if_neg (by simp)]
        cases hsp : List.splitOnP (· == ',') (List.intercalate (str ", ") (g2 :: G'')) with
        | nil => exact absurd hsp (List.splitOnP_ne_nil _ _)
        | cons h1 t1 =>
          rw [List.splitOn, hsp] at ihm
          simp only [List.modifyHead, List.map_cons] at ihm ⊢
          rw [htrim, trimSpace_cons_space, ihm]
      · exact trimLeft_append _ hg4 hg1
      · have : g ++ ',' :: ' ' :: List.intercalate (str ", ") (g2 :: G'')
            = (g ++ [',', ' ']) ++ List.intercalate (str ", ") (g2 :: G'') := by
          simp [List.append_assoc]
        rw [this]
        exact trimRight_append ihr ihne
      · intro hm
        rcases List.mem_append.mp hm with hm | hm
        · exact hg3 hm
        · rcases List.mem_cons.mp hm with he | hm
          · exact absurd he (by decide)
          · rcases List.mem_cons.mp hm with he | hm
            · exact absurd he (by decide)
            · exact ihn hm
      · exact List.append_ne_nil_of_right_ne_nil g (by simp)

theorem splitOn_cons_newline (s : Str) :
    List.splitOn '\n' ('\n' :: s) = [] :: List.splitOn '\n' s := by
  simp [List.splitOn, List.splitOnP_cons]

theorem nl_not_mem_append {pre x : Str} (hp : '\n' ∉ pre) (hx : '\n' ∉ x) :
    '\n' ∉ pre ++ x := by
  intro h
  rcases List.mem_append.mp h with h | h
  · exact hp h
  · exact hx h

/-- Claim C3 (amended): the plain-dialect round trip reproduces title, tags
and content exactly, provided additionally that the title and each tag are
newline-free and trim-stable, tags are non-empty and comma-free, the content
is non-empty, trim-stable, has no literal `\n` escape, and its first line
does not occur as a substring anywhere before the content position of the
serialization (the counterexample shows `strings.Index` latching onto such an
earlier occurrence otherwise). -/
theorem c3_plain_roundtrip (n : Note)
    (ht1 : '\n' ∉ n.title) (ht2 : trimLeft n.title = n.title)
    (ht3 : trimRight n.title = n.title)
    (hg : ∀ g ∈ n.tags, g ≠ [] ∧ ',' ∉ g ∧ '\n' ∉ g ∧ trimLeft g = g ∧ trimRight g = g)
    (hc1 : trimLeft n.content = n.content) (hc2 : trimRight n.content = n.content)
    (hc3 : containsSub n.content (str "\\n") = false)
    (hc4 : n.content ≠ [])
    (hlab : ∀ l ∈ List.splitOn '\n' n.content,
        startsWith l (str "Title:") = false ∧ startsWith l (str "Tags:") = false
          ∧ startsWith l (str "Created:") = false
          ∧ startsWith l (str "Modified:") = false)
    (hocc : ∀ p, p < (txtHeader n).length →
        startsWith ((formatTxtNote n).drop p) (firstLine n.content) = false) :
    parseTxtNote (formatTxtNote n) = (n.title, n.content, n.tags) := by
  have hexp : replaceAll (str "\\n") (str "\n") n.content = n.content :=
    replaceAll_of_not_contains hc3
  have hwhole : formatTxtNote n = txtHeader n ++ n.content := by
    rw [formatTxtNote_eq_header, hexp]
  -- the first content line
  obtain ⟨l0, t0, hsp⟩ : ∃ l0 t0, List.splitOn '\n' n.content = l0 :: t0 := by
    cases hx : List.splitOn '\n' n.content with
    | nil => exact absurd hx (by rw [List.splitOn]; exact List.splitOnP_ne_nil _ _)
    | cons a b => exact ⟨a, b, rfl⟩
  have hl0mem : l0 ∈ List.splitOn '\n' n.content := by
    rw [hsp]
    exact List.mem_cons_self _ _
  have hfl : firstLine n.content = l0 := by rw [firstLine, hsp]; rfl
  have hCl0 : ∃ r, n.content = l0 ++ r := by
    have hI : List.intercalate ['\n'] (l0 :: t0) = n.content := by
      rw [← hsp]
      exact List.intercalate_splitOn _ '\n'
    cases t0 with
    | nil =>
      rw [intercalate_single] at hI
      exact ⟨[], by rw [List.append_nil, hI]⟩
    | cons t1 t' =>
      rw [intercalate_cons₂, List.append_assoc] at hI
      exact ⟨['\n'] ++ List.intercalate ['\n'] (t1 :: t'), hI.symm⟩
  have hl0ne : l0 ≠ [] := by
    obtain ⟨c, crest, hC⟩ : ∃ c crest, n.content = c :: crest := by
      cases hx : n.content with
      | nil => exact absurd hx hc4
      | cons a b => exact ⟨a, b, rfl⟩
    have hcns : goIsSpace c = false := cons_of_trimLeft_self (hC ▸ hc1)
    have hcnl : (c == '\n') = false := by
      simp only [beq_eq_false_iff_ne, ne_eq]
      intro he
      subst he
      exact absurd hcns (by decide)
    rw [List.splitOn, hC, List.splitOnP_cons, if_neg (by simp [hcnl])] at hsp
    cases hr : List.splitOnP (· == '\n') crest with
    | nil => exact absurd hr (List.splitOnP_ne_nil _ _)
    | cons hh tt =>
      rw [hr] at hsp
      simp only [List.modifyHead] at hsp
      rw [List.cons.injEq] at hsp
      rw [← hsp.1]
      simp
  have hstartC : startsWith n.content l0 = true := by
    obtain ⟨r, hr⟩ := hCl0
    rw [hr]
    exact startsWith_append_self _ _
  have hidx : indexOfSub (formatTxtNote n) l0 = some (txtHeader n).length := by
    refine indexOfSub_eq_some_of _ _ ?_ ?_
    · rw [hwhole, List.drop_left' rfl]
      exact hstartC
    · intro p hp
      have := hocc p hp
      rwa [hfl] at this
  have hcontentTrim : trimSpace n.content = n.content := by
    rw [trimSpace, hc1, hc2]
  have hlabs := hlab l0 hl0mem
  -- header lines
  have hnl : (str "\n" : Str) = ['\n'] := rfl
  have hnlL2 : '\n' ∉ str "Created: " ++ formatFullDT n.created :=
    nl_not_mem_append (by decide) (newline_not_mem_formatFullDT _)
  have hnlL3 : '\n' ∉ str "Modified: " ++ formatFullDT n.modified :=
    nl_not_mem_append (by decide) (newline_not_mem_formatFullDT _)
  have hnlL1 : '\n' ∉ str "Title: " ++ n.title := nl_not_mem_append (by decide) ht1
  have hT1 : startsWith (str "Title: " ++ n.title) (str "Title:") = true := by
    rw [show str "Title: " ++ n.title = str "Title:" ++ (' ' :: n.title) from rfl]
    exact startsWith_append_self _ _
  have htitleStep :
      trimSpace (trimLeading (str "Title: " ++ n.title) (str "Title:")) = n.title := by
    rw [trimLeading, if_pos hT1,
      show str "Title: " ++ n.title = str "Title:" ++ (' ' :: n.title) from rfl,
      List.drop_left' (by decide), trimSpace_cons_space, trimSpace, ht2, ht3]
  have hC2a : startsWith (str "Created: " ++ formatFullDT n.created)
      (str "Title:") = false := startsWith_label_false _ (by decide) (by decide)
  have hC2b : startsWith (str "Created: " ++ formatFullDT n.created)
      (str "Tags:") = false := startsWith_label_false _ (by decide) (by decide)
  have hC2c : startsWith (str "Created: " ++ formatFullDT n.created)
      (str "Created:") = true := by
    rw [show str "Created: " ++ formatFullDT n.created
        = str "Created:" ++ (' ' :: formatFullDT n.created) from rfl]
    exact startsWith_append_self _ _
  have hC3a : startsWith (str "Modified: " ++ formatFullDT n.modified)
      (str "Title:") = false := startsWith_label_false _ (by decide) (by decide)
  have hC3b : startsWith (str "Modified: " ++ formatFullDT n.modified)
      (str "Tags:") = false := startsWith_label_false _ (by decide) (by decide)
  have hC3c : startsWith (str "Modified: " ++ formatFullDT n.modified)
      (str "Created:") = false := startsWith_label_false _ (by decide) (by decide)
  have hC3d : startsWith (str "Modified: " ++ formatFullDT n.modified)
      (str "Modified:") = true := by
    rw [show str "Modified: " ++ formatFullDT n.modified
        = str "Modified:" ++ (' ' :: formatFullDT n.modified) from rfl]
    exact startsWith_append_self _ _
  by_cases htags : n.tags = []
  · -- no Tags: line
    have hshape : formatTxtNote n
        = (str "Title: " ++ n.title)
            ++ '\n' :: ((str "Created: " ++ formatFullDT n.created)
              ++ '\n' :: ((str "Modified: " ++ formatFullDT n.modified)
                ++ '\n' :: ('\n' :: n.content))) := by
      rw [hwhole, txtHeader, htags]
      simp only [List.length_nil, gt_iff_lt, lt_self_iff_false, if_false]
      rw [hnl]
      simp [List.append_assoc]
    have hhdrlen : (txtHeader n).length + 0 = (txtHeader n).length := rfl
    have hlines : List.splitOn '\n' (formatTxtNote n)
        = (str "Title: " ++ n.title)
            :: (str "Created: " ++ formatFullDT n.created)
            :: (str "Modified: " ++ formatFullDT n.modified)
            :: [] :: (l0 :: t0) := by
      rw [hshape, splitOn_newline_append _ hnlL1, splitOn_newline_append _ hnlL2,
        splitOn_newline_append _ hnlL3, splitOn_cons_newline, hsp]
    rw [parseTxtNote, hlines]
    rw [txtLoop, if_pos hT1, htitleStep]
    rw [txtLoop, if_neg (by simp [hC2a]), if_neg (by simp [hC2b]),
      if_pos (by simp [hC2c])]
    rw [txtLoop, if_neg (by simp [hC3a]), if_neg (by simp [hC3b]),
      if_pos (by simp [hC3d])]
    rw [txtLoop, if_neg (by decide), if_neg (by decide), if_neg (by decide),
      if_pos rfl]
    rw [txtLoop, if_neg (by simp [hlabs.1]), if_neg (by simp [hlabs.2.1]),
      if_neg (by simp [hlabs.2.2.1, hlabs.2.2.2]), if_neg hl0ne]
    rw [hidx]
    simp only [hwhole, List.drop_left' rfl, hcontentTrim, htags]
  · -- with a Tags: line
    have hJ := tags_roundtrip n.tags htags hg
    obtain ⟨hJm, hJl, hJr, hJn, hJne⟩ := hJ
    have hnlL4 : '\n' ∉ str "Tags: " ++ List.intercalate (str ", ") n.tags :=
      nl_not_mem_append (by decide) hJn
    have hT4a : startsWith (str "Tags: " ++ List.intercalate (str ", ") n.tags)
        (str "Title:") = false := startsWith_label_false _ (by decide) (by decide)
    have hT4b : startsWith (str "Tags: " ++ List.intercalate (str ", ") n.tags)
        (str "Tags:") = true := by
      rw [show str "Tags: " ++ List.intercalate (str ", ") n.tags
          = str "Tags:" ++ (' ' :: List.intercalate (str ", ") n.tags) from rfl]
      exact startsWith_append_self _ _
    have htagsStep :
        (List.splitOn ','
            (trimSpace (trimLeading
              (str "Tags: " ++ List.intercalate (str ", ") n.tags)
              (str "Tags:")))).map trimSpace = n.tags := by
      rw [trimLeading, if_pos hT4b,
        show str "Tags: " ++ List.intercalate (str ", ") n.tags
          = str "Tags:" ++ (' ' :: List.intercalate (str ", ") n.tags) from rfl,
        List.drop_left' (by decide), trimSpace_cons_space, trimSpace, hJl, hJr]
      exact hJm
    have hshape : formatTxtNote n
        = (str "Title: " ++ n.title)
            ++ '\n' :: ((str "Created: " ++ formatFullDT n.created)
              ++ '\n' :: ((str "Modified: " ++ formatFullDT n.modified)
                ++ '\n' :: ((str "Tags: " ++ List.intercalate (str ", ") n.tags)
                  ++ '\n' :: ('\n' :: n.content)))) := by
      rw [hwhole, txtHeader,
        if_pos (by simp [List.length_pos, htags])]
      rw [hnl]
      simp [List.append_assoc]
    have hlines : List.splitOn '\n' (formatTxtNote n)
        = (str "Title: " ++ n.title)
            :: (str "Created: " ++ formatFullDT n.created)
            :: (str "Modified: " ++ formatFullDT n.modified)
            :: (str "Tags: " ++ List.intercalate (str ", ") n.tags)
            :: [] :: (l0 :: t0) := by
      rw [hshape, splitOn_newline_append _ hnlL1, splitOn_newline_append _ hnlL2,
        splitOn_newline_append _ hnlL3, splitOn_newline_append _ hnlL4,
        splitOn_cons_newline, hsp]
    rw [parseTxtNote, hlines]
    rw [txtLoop, if_pos hT1, htitleStep]
    rw [txtLoop, if_neg (by simp [hC2a]), if_neg (by simp [hC2b]),
      if_pos (by simp [hC2c])]
    rw [txtLoop, if_neg (by simp [hC3a]), if_neg (by simp [hC3b]),
      if_pos (by simp [hC3d])]
    rw [txtLoop, if_neg (by simp [hT4a]), if_pos hT4b]
    simp only [htagsStep]
    rw [txtLoop, if_neg (by decide), if_neg (by decide), if_neg (by decide),
      if_pos rfl]
    rw [txtLoop, if_neg (by simp [hlabs.1]), if_neg (by simp [hlabs.2.1]),
      if_neg (by simp [hlabs.2.2.1, hlabs.2.2.2]), if_neg hl0ne]
    rw [hidx]
    simp only [hwhole, List.drop_left' rfl, hcontentTrim]

/-- Claim C3, witness: the amended round trip evaluated on a concrete note
with two tags and two content lines. -/
theorem c3_plain_roundtrip_witness :
    parseTxtNote
        (formatTxtNote
          (Note.mk (str "w") (str "Meeting") (str "hello world\nsecond line")
            ⟨2024, 12, 1, 14, 30, 22⟩ ⟨2024, 12, 1, 14, 30, 22⟩
            [str "work", str "urgent"] (str "txt") (str "w.txt")))
      = (str "Meeting", str "hello world\nsecond line",
          [str "work", str "urgent"]) :=
  c3_plain_roundtrip
    (Note.mk (str "w") (str "Meeting") (str "hello world\nsecond line")
      ⟨2024, 12, 1, 14, 30, 22⟩ ⟨2024, 12, 1, 14, 30, 22⟩
      [str "work", str "urgent"] (str "txt") (str "w.txt"))
    (by decide) (by decide) (by decide) (by decide) (by decide) (by decide)
    (by decide) (by decide) (by decide) (by decide)

/-! ## Infrastructure for the outline-dialect round trip -/

theorem dropWhile_eq_self_of {p : Char → Bool} {s : Str}
    (h : ∀ c ∈ s, p c = false) : s.dropWhile p = s := by
  cases s with
  | nil => rfl
  | cons c r =>
    exact List.dropWhile_cons_of_neg (by simp [h c (List.mem_cons_self c r)])

theorem noSpace_trimLeft {s : Str} (h : ∀ c ∈ s, goIsSpace c = false) :
    trimLeft s = s := dropWhile_eq_self_of h

theorem noSpace_trimRight {s : Str} (h : ∀ c ∈ s, goIsSpace c = false) :
    trimRight s = s := by
  rw [trimRight, dropWhile_eq_self_of (fun c hc => h c (List.mem_reverse.mp hc)),
    List.reverse_reverse]

theorem noSpace_trimSpace {s : Str} (h : ∀ c ∈ s, goIsSpace c = false) :
    trimSpace s = s := by
  rw [trimSpace, noSpace_trimLeft h, noSpace_trimRight h]

theorem replaceChar_eq_self {a b : Char} {s : Str} (h : a ∉ s) :
    replaceChar a b s = s := by
  rw [replaceChar]
  have : ∀ x ∈ s, (if x == a then b else x) = x := by
    intro x hx
    rw [if_neg]
    simp only [beq_iff_eq]
    intro he
    exact h (he ▸ hx)
  rw [List.map_congr_left this]
  simp

theorem mem_insertTag {acc : List Str} {g t : Str} :
    t ∈ insertTag acc g ↔ t ∈ acc ∨ t = g := by
  rw [insertTag]
  by_cases hm : g ∈ acc
  · rw [if_pos hm]
    constructor
    · exact Or.inl
    · rintro (h | rfl)
      · exact h
      · exact hm
  · rw [if_neg hm]
    simp [List.mem_append]

theorem mem_foldl_insertTag {G : List Str} :
    ∀ {acc : List Str} {t : Str},
      t ∈ G.foldl insertTag acc ↔ t ∈ acc ∨ t ∈ G := by
  induction G with
  | nil => intro acc t; simp
  | cons g G' ih =>
    intro acc t
    rw [List.foldl_cons, ih, mem_insertTag]
    simp [or_assoc, List.mem_cons]

/-- The trimming/emptiness re-checks inside `addTags`'s loop are no-ops for
non-empty trim-stable tokens, leaving plain set insertion. -/
theorem foldl_addTags_body {G : List Str}
    (h : ∀ g ∈ G, g ≠ [] ∧ trimSpace g = g) :
    ∀ acc : List Str,
      G.foldl
          (fun a t =>
            if t = [] then a
            else
              let t' := trimSpace t
              if t' = [] then a else insertTag a t')
          acc
        = G.foldl insertTag acc := by
  induction G with
  | nil => intro acc; rfl
  | cons g G' ih =>
    intro acc
    obtain ⟨h1, h2⟩ := h g (List.mem_cons_self g G')
    rw [List.foldl_cons, List.foldl_cons, if_neg h1]
    simp only [h2, if_neg h1]
    exact ih (fun x hx => h x (List.mem_cons_of_mem g hx)) _

theorem startsWith_take_of {s p : Str} (k : Nat) (h : startsWith s p = true) :
    startsWith s (p.take k) = true := by
  rcases startsWith_iff_append.mp h with ⟨t, rfl⟩
  nth_rewrite 1 [← List.take_append_drop k p]
  rw [List.append_assoc]
  exact startsWith_append_self _ _

/-- Disprove a leading-label match by looking only at the first
`pre.length` characters, also when the label is longer than `pre`. -/
theorem startsWith_label_false₂ {pre lab : Str} (x : Str)
    (h : startsWith pre (lab.take pre.length) = false) :
    startsWith (pre ++ x) lab = false := by
  by_contra hc
  rw [Bool.not_eq_false] at hc
  have h1 := startsWith_take_of pre.length hc
  have hlen : (lab.take pre.length).length ≤ pre.length := by
    simp [List.length_take]
  rw [startsWith_append_left x hlen] at h1
  exact absurd h1 (by simp [h])

/-- Go's `strings.Fields` applied to a space-join of non-empty whitespace-free
tokens recovers the tokens. -/
theorem fields_intercalate_space (G : List Str) (hne : G ≠ [])
    (h : ∀ g ∈ G, g ≠ [] ∧ ∀ c ∈ g, goIsSpace c = false) :
    fields (List.intercalate (str " ") G) = G := by
  induction G with
  | nil => exact absurd rfl hne
  | cons g G' ih =>
    obtain ⟨h1, h2⟩ := h g (List.mem_cons_self g G')
    cases G' with
    | nil =>
      rw [intercalate_single, fields,
        List.splitOnP_eq_single _ g (fun x hx => by simp [h2 x hx])]
      simp [h1]
    | cons g2 G'' =>
      have hsh : List.intercalate (str " ") (g :: g2 :: G'')
          = g ++ ' ' :: List.intercalate (str " ") (g2 :: G'') := by
        rw [intercalate_cons₂, List.append_assoc]
        rfl
      rw [hsh, fields,
        List.splitOnP_first _ g (fun x hx => by simp [h2 x hx]) ' ' (by decide) _]
      rw [List.filter_cons, if_pos (by simp [h1])]
      rw [fields] at ih
      rw [ih (by simp) (fun x hx => h x (List.mem_cons_of_mem g hx))]

theorem intercalate_space_facts (G : List Str) (hne : G ≠ [])
    (h : ∀ g ∈ G, g ≠ [] ∧ ':' ∉ g ∧ '\n' ∉ g ∧ ∀ c ∈ g, goIsSpace c = false) :
    trimLeft (List.intercalate (str " ") G) = List.intercalate (str " ") G
      ∧ trimRight (List.intercalate (str " ") G) = List.intercalate (str " ") G
      ∧ ':' ∉ List.intercalate (str " ") G
      ∧ '\n' ∉ List.intercalate (str " ") G
      ∧ List.intercalate (str " ") G ≠ [] := by
  induction G with
  | nil => exact absurd rfl hne
  | cons g G' ih =>
    obtain ⟨h1, h2, h3, h4⟩ := h g (List.mem_cons_self g G')
    cases G' with
    | nil =>
      rw [intercalate_single]
      exact ⟨noSpace_trimLeft h4, noSpace_trimRight h4, h2, h3, h1⟩
    | cons g2 G'' =>
      obtain ⟨ihl, ihr, ihc, ihn, ihne⟩ :=
        ih (by simp) (fun x hx => h x (List.mem_cons_of_mem g hx))
      have hsh : List.intercalate (str " ") (g :: g2 :: G'')
          = g ++ ' ' :: List.intercalate (str " ") (g2 :: G'') := by
        rw [intercalate_cons₂, List.append_assoc]
        rfl
      rw [hsh]
      refine ⟨trimLeft_append _ (noSpace_trimLeft h4) h1, ?_, ?_, ?_, ?_⟩
      · have : g ++ ' ' :: List.intercalate (str " ") (g2 :: G'')
            = (g ++ [' ']) ++ List.intercalate (str " ") (g2 :: G'') := by
          simp [List.append_assoc]
        rw [this]
        exact trimRight_append ihr ihne
      · intro hm
        rcases List.mem_append.mp hm with hm | hm
        · exact h2 hm
        · rcases List.mem_cons.mp hm with he | hm
          · exact absurd he (by decide)
          · exact ihc hm
      · intro hm
        rcases List.mem_append.mp hm with hm | hm
        · exact h3 hm
        · rcases List.mem_cons.mp hm with he | hm
          · exact absurd he (by decide)
          · exact ihn hm
      · exact List.append_ne_nil_of_right_ne_nil g (by simp)

/-- A directive line other than `#+TITLE:`/`#+FILETAGS:`/`#+TAGS:` (such as
the `#+DATE:`/`#+MODIFIED:` lines the serializer writes) changes nothing: it
is skipped by every metadata branch and, starting with `#+`, never starts the
content either. -/
theorem orgStep_other_directive {raw : Str} (i : Nat) (st : OrgState)
    (hT : startsWith (toUpperStr (trimSpace raw)) (str "#+TITLE:") = false)
    (hF : startsWith (toUpperStr (trimSpace raw)) (str "#+FILETAGS:") = false)
    (hG : startsWith (toUpperStr (trimSpace raw)) (str "#+TAGS:") = false)
    (hStar : startsWith (trimSpace raw) (str "*") = false)
    (hHash : startsWith (trimSpace raw) (str "#+") = true) :
    orgStep i raw st = st := by
  have hne : trimSpace raw ≠ [] := by
    intro he
    rw [he] at hHash
    exact absurd hHash (by decide)
  obtain ⟨ti, ta, cs⟩ := st
  rw [orgStep]
  simp only [hT, hF, hG, Bool.false_eq_true, if_false, headingTags, hStar,
    trimSpace_idem, hHash, if_true]
  cases cs <;> simp [hne]

/-- The `#+TAGS:` line written by the serializer adds exactly the tag set. -/
theorem orgStep_tags (G : List Str) (i : Nat) (st : OrgState) (hne : G ≠ [])
    (h : ∀ g ∈ G, g ≠ [] ∧ ':' ∉ g ∧ '\n' ∉ g ∧ ∀ c ∈ g, goIsSpace c = false) :
    orgStep i (str "#+TAGS: " ++ List.intercalate (str " ") G) st
      = ⟨st.title, G.foldl insertTag st.tagAcc, st.contentStart⟩ := by
  obtain ⟨hJl, hJr, hJc, hJn, hJne⟩ := intercalate_space_facts G hne h
  have htrim : trimSpace (str "#+TAGS: " ++ List.intercalate (str " ") G)
      = str "#+TAGS: " ++ List.intercalate (str " ") G := by
    rw [show str "#+TAGS: " ++ List.intercalate (str " ") G
        = '#' :: (str "+TAGS: " ++ List.intercalate (str " ") G) from rfl]
    exact trimSpace_no_op (by decide) hJr hJne
  have hupper : toUpperStr (trimSpace (str "#+TAGS: " ++ List.intercalate (str " ") G))
      = str "#+TAGS: " ++ toUpperStr (List.intercalate (str " ") G) := by
    rw [htrim, toUpperStr, List.map_append]
    have : (str "#+TAGS: ").map Char.toUpper = str "#+TAGS: " := by decide
    rw [this, toUpperStr]
  have hT : startsWith (toUpperStr (trimSpace (str "#+TAGS: "
      ++ List.intercalate (str " ") G))) (str "#+TITLE:") = false := by
    rw [hupper]
    exact startsWith_label_false _ (by decide) (by decide)
  have hF : startsWith (toUpperStr (trimSpace (str "#+TAGS: "
      ++ List.intercalate (str " ") G))) (str "#+FILETAGS:") = false := by
    rw [hupper]
    exact startsWith_label_false₂ _ (by decide)
  have hG2 : startsWith (toUpperStr (trimSpace (str "#+TAGS: "
      ++ List.intercalate (str " ") G))) (str "#+TAGS:") = true := by
    rw [hupper, show str "#+TAGS: " ++ toUpperStr (List.intercalate (str " ") G)
        = str "#+TAGS:" ++ (' ' :: toUpperStr (List.intercalate (str " ") G)) from rfl]
    exact startsWith_append_self _ _
  have hdrop : (trimSpace (str "#+TAGS: " ++ List.intercalate (str " ") G)).drop
      (str "#+TAGS:").length = ' ' :: List.intercalate (str " ") G := by
    rw [htrim, show str "#+TAGS: " ++ List.intercalate (str " ") G
        = str "#+TAGS:" ++ (' ' :: List.intercalate (str " ") G) from rfl,
      List.drop_left' (by decide)]
  have haddTags : addTags (' ' :: List.intercalate (str " ") G) st.tagAcc
      = G.foldl insertTag st.tagAcc := by
    rw [addTags]
    have ht : trimSpace (' ' :: List.intercalate (str " ") G)
        = List.intercalate (str " ") G := by
      rw [trimSpace_cons_space, trimSpace, hJl, hJr]
    simp only [ht, hJne, if_neg hJne, ite_false]
    rw [replaceChar_eq_self hJc,
      fields_intercalate_space G hne (fun g hg => ⟨(h g hg).1, (h g hg).2.2.2⟩)]
    exact foldl_addTags_body
      (fun g hg => ⟨(h g hg).1, noSpace_trimSpace (h g hg).2.2.2⟩) _
  rw [orgStep]
  simp only [hT, hF, hG2, Bool.false_eq_true, if_false, if_true, hdrop, haddTags]

/-- Applying `addTags` to a space-joined tag list inserts exactly those tags. -/
theorem addTags_space_intercalate (G : List Str) (acc : List Str) (hne : G ≠ [])
    (h : ∀ g ∈ G, g ≠ [] ∧ ':' ∉ g ∧ '\n' ∉ g ∧ ∀ c ∈ g, goIsSpace c = false) :
    addTags (' ' :: List.intercalate (str " ") G) acc = G.foldl insertTag acc := by
  obtain ⟨hJl, hJr, hJc, hJn, hJne⟩ := intercalate_space_facts G hne h
  rw [addTags]
  have ht : trimSpace (' ' :: List.intercalate (str " ") G)
      = List.intercalate (str " ") G := by
    rw [trimSpace_cons_space, trimSpace, hJl, hJr]
  simp only [ht, hJne, if_neg hJne, ite_false]
  rw [replaceChar_eq_self hJc,
    fields_intercalate_space G hne (fun g hg => ⟨(h g hg).1, (h g hg).2.2.2⟩)]
  exact foldl_addTags_body
    (fun g hg => ⟨(h g hg).1, noSpace_trimSpace (h g hg).2.2.2⟩) _

/-- The `#+FILETAGS:` directive also adds exactly its tag set, through the
same `addTags` closure as `#+TAGS:`. -/
theorem orgStep_filetags (G : List Str) (i : Nat) (st : OrgState) (hne : G ≠ [])
    (h : ∀ g ∈ G, g ≠ [] ∧ ':' ∉ g ∧ '\n' ∉ g ∧ ∀ c ∈ g, goIsSpace c = false) :
    orgStep i (str "#+FILETAGS: " ++ List.intercalate (str " ") G) st
      = ⟨st.title, G.foldl insertTag st.tagAcc, st.contentStart⟩ := by
  obtain ⟨hJl, hJr, hJc, hJn, hJne⟩ := intercalate_space_facts G hne h
  have htrim : trimSpace (str "#+FILETAGS: " ++ List.intercalate (str " ") G)
      = str "#+FILETAGS: " ++ List.intercalate (str " ") G := by
    rw [show str "#+FILETAGS: " ++ List.intercalate (str " ") G
        = '#' :: (str "+FILETAGS: " ++ List.intercalate (str " ") G) from rfl]
    exact trimSpace_no_op (by decide) hJr hJne
  have hupper : toUpperStr (trimSpace (str "#+FILETAGS: "
      ++ List.intercalate (str " ") G))
      = str "#+FILETAGS: " ++ toUpperStr (List.intercalate (str " ") G) := by
    rw [htrim, toUpperStr, List.map_append]
    have : (str "#+FILETAGS: ").map Char.toUpper = str "#+FILETAGS: " := by decide
    rw [this, toUpperStr]
  have hT : startsWith (toUpperStr (trimSpace (str "#+FILETAGS: "
      ++ List.intercalate (str " ") G))) (str "#+TITLE:") = false := by
    rw [hupper]
    exact startsWith_label_false _ (by decide) (by decide)
  have hF : startsWith (toUpperStr (trimSpace (str "#+FILETAGS: "
      ++ List.intercalate (str " ") G))) (str "#+FILETAGS:") = true := by
    rw [hupper, show str "#+FILETAGS: " ++ toUpperStr (List.intercalate (str " ") G)
        = str "#+FILETAGS:"
            ++ (' ' :: toUpperStr (List.intercalate (str " ") G)) from rfl]
    exact startsWith_append_self _ _
  have hdrop : (trimSpace (str "#+FILETAGS: " ++ List.intercalate (str " ") G)).drop
      (str "#+FILETAGS:").length = ' ' :: List.intercalate (str " ") G := by
    rw [htrim, show str "#+FILETAGS: " ++ List.intercalate (str " ") G
        = str "#+FILETAGS:" ++ (' ' :: List.intercalate (str " ") G) from rfl,
      List.drop_left' (by decide)]
  have haddTags := addTags_space_intercalate G st.tagAcc hne h
  rw [orgStep]
  simp only [hT, hF, Bool.false_eq_true, if_false, if_true, hdrop, haddTags]

/-- Claim C6 (amended): the content start is indeed the first non-blank
non-directive line and from there on the content is the whole remaining text
(trimmed) whatever those later lines hold, but the scan keeps matching
directives after that point: a directive-like line appearing after the
content start is simultaneously content and metadata, so a later non-empty
`#+TITLE:` still overwrites the returned title (second conjunct), a later
`#+TAGS:` directive still extends the tag set (third conjunct), and a later
heading tag block still extends the tag set (fourth conjunct). -/
theorem c6_late_directives_still_parsed :
    (∀ l rest : Str, '\n' ∉ l → trimSpace l ≠ [] →
        startsWith (toUpperStr (trimSpace l)) (str "#") = false →
        startsWith (trimSpace l) (str "*") = false →
        (parseOrgNote (l ++ '\n' :: rest)).2.1 = trimSpace (l ++ '\n' :: rest))
      ∧ (∀ l t : Str, '\n' ∉ l → trimSpace l ≠ [] →
          startsWith (toUpperStr (trimSpace l)) (str "#") = false →
          startsWith (trimSpace l) (str "*") = false →
          trimLeft t = t → trimRight t = t → t ≠ [] → '\n' ∉ t →
          parseOrgNote (l ++ str "\n#+TITLE: " ++ t)
            = (t, trimSpace (l ++ str "\n#+TITLE: " ++ t), []))
      ∧ (∀ (l : Str) (G : List Str), '\n' ∉ l → trimSpace l ≠ [] →
          startsWith (toUpperStr (trimSpace l)) (str "#") = false →
          startsWith (trimSpace l) (str "*") = false →
          G ≠ [] →
          (∀ g ∈ G, g ≠ [] ∧ ':' ∉ g ∧ '\n' ∉ g ∧ ∀ c ∈ g, goIsSpace c = false) →
          (parseOrgNote (l ++ str "\n#+TAGS: " ++ List.intercalate (str " ") G)).1 = []
            ∧ (parseOrgNote (l ++ str "\n#+TAGS: "
                  ++ List.intercalate (str " ") G)).2.1
                = trimSpace (l ++ str "\n#+TAGS: " ++ List.intercalate (str " ") G)
            ∧ ∀ t, t ∈ (parseOrgNote (l ++ str "\n#+TAGS: "
                  ++ List.intercalate (str " ") G)).2.2 ↔ t ∈ G)
      ∧ (∀ l : Str, '\n' ∉ l → trimSpace l ≠ [] →
          startsWith (toUpperStr (trimSpace l)) (str "#") = false →
          startsWith (trimSpace l) (str "*") = false →
          (parseOrgNote (l ++ str "\n* Review :work:planning:")).2.1
              = trimSpace (l ++ str "\n* Review :work:planning:")
            ∧ ∀ t, t ∈ (parseOrgNote (l ++ str "\n* Review :work:planning:")).2.2
                ↔ (t = str "work" ∨ t = str "planning")) := by
  refine ⟨?_, ?_, ?_, ?_⟩
  · intro l rest hl0 hl1 hl2 hl3
    have hlines : List.splitOn '\n' (l ++ '\n' :: rest)
        = l :: List.splitOn '\n' rest := splitOn_newline_append rest hl0
    have hjoin : List.intercalate (str "\n") (l :: List.splitOn '\n' rest)
        = l ++ '\n' :: rest := by
      rw [show (str "\n" : Str) = ['\n'] from rfl, ← hlines]
      exact List.intercalate_splitOn _ '\n'
    have hcs : (orgLoop 1 (List.splitOn '\n' rest)
          (orgStep 0 l ⟨[], [], none⟩)).contentStart = some 0 := by
      apply orgLoop_preserves_cs
      rw [orgStep_inert 0 _ hl2 hl3]
      simp [hl1]
    rw [parseOrgNote, hlines, orgLoop, hcs]
    simp only [List.drop_zero, hjoin]
  · intro l t hl0 hl1 hl2 hl3 ht1 ht2 htne htnl
    have hshape : l ++ str "\n#+TITLE: " ++ t
        = l ++ '\n' :: (str "#+TITLE: " ++ t) := by
      rw [List.append_assoc]
      rfl
    have hnl2 : '\n' ∉ str "#+TITLE: " ++ t := by
      intro hm
      rcases List.mem_append.mp hm with h | h
      · revert h; decide
      · exact htnl h
    have hlines : List.splitOn '\n' (l ++ str "\n#+TITLE: " ++ t)
        = [l, str "#+TITLE: " ++ t] := by
      rw [hshape, splitOn_newline_append _ hl0, splitOn_no_newline hnl2]
    have hjoin : List.intercalate (str "\n") [l, str "#+TITLE: " ++ t]
        = l ++ str "\n#+TITLE: " ++ t := by
      rw [show (str "\n" : Str) = ['\n'] from rfl, ← hlines]
      exact List.intercalate_splitOn _ '\n'
    rw [parseOrgNote, hlines]
    rw [orgLoop, orgStep_inert 0 _ hl2 hl3]
    simp only [if_neg hl1]
    rw [orgLoop, orgStep_title 1 _ ht1 ht2 htne, orgLoop]
    simp only [List.drop_zero, hjoin]
  · intro l G hl0 hl1 hl2 hl3 hGne hG
    have hshape : l ++ str "\n#+TAGS: " ++ List.intercalate (str " ") G
        = l ++ '\n' :: (str "#+TAGS: " ++ List.intercalate (str " ") G) := by
      rw [List.append_assoc]
      rfl
    have hnl2 : '\n' ∉ str "#+TAGS: " ++ List.intercalate (str " ") G :=
      nl_not_mem_append (by decide) (intercalate_space_facts G hGne hG).2.2.2.1
    have hlines : List.splitOn '\n'
          (l ++ str "\n#+TAGS: " ++ List.intercalate (str " ") G)
        = [l, str "#+TAGS: " ++ List.intercalate (str " ") G] := by
      rw [hshape, splitOn_newline_append _ hl0, splitOn_no_newline hnl2]
    have hjoin : List.intercalate (str "\n")
          [l, str "#+TAGS: " ++ List.intercalate (str " ") G]
        = l ++ str "\n#+TAGS: " ++ List.intercalate (str " ") G := by
      rw [show (str "\n" : Str) = ['\n'] from rfl, ← hlines]
      exact List.intercalate_splitOn _ '\n'
    have hev : parseOrgNote (l ++ str "\n#+TAGS: " ++ List.intercalate (str " ") G)
        = ([], trimSpace (l ++ str "\n#+TAGS: " ++ List.intercalate (str " ") G),
            G.foldl insertTag []) := by
      rw [parseOrgNote, hlines]
      rw [orgLoop, orgStep_inert 0 _ hl2 hl3]
      simp only [if_neg hl1]
      rw [orgLoop, orgStep_tags G 1 _ hGne hG, orgLoop]
      simp only [List.drop_zero, hjoin]
    refine ⟨by rw [hev], by rw [hev], ?_⟩
    intro t
    rw [hev]
    show t ∈ G.foldl insertTag [] ↔ t ∈ G
    rw [mem_foldl_insertTag]
    simp
  · intro l hl0 hl1 hl2 hl3
    have hlines : List.splitOn '\n' (l ++ str "\n* Review :work:planning:")
        = [l, str "* Review :work:planning:"] := by
      rw [show (str "\n* Review :work:planning:" : Str)
          = '\n' :: str "* Review :work:planning:" from rfl,
        splitOn_newline_append _ hl0, splitOn_no_newline (by decide)]
    have hjoin : List.intercalate (str "\n") [l, str "* Review :work:planning:"]
        = l ++ str "\n* Review :work:planning:" := by
      rw [show (str "\n" : Str) = ['\n'] from rfl, ← hlines]
      exact List.intercalate_splitOn _ '\n'
    have hev : parseOrgNote (l ++ str "\n* Review :work:planning:")
        = ([], trimSpace (l ++ str "\n* Review :work:planning:"),
            insertTag (insertTag [] (str "work")) (str "planning")) := by
      rw [parseOrgNote, hlines]
      rw [orgLoop, orgStep_inert 0 _ hl2 hl3]
      simp only [if_neg hl1]
      rw [orgLoop, orgStep_heading_review 1 _, orgLoop]
      simp only [List.drop_zero, hjoin]
    refine ⟨by rw [hev], ?_⟩
    intro t
    rw [hev]
    show t ∈ insertTag (insertTag [] (str "work")) (str "planning") ↔ _
    rw [show insertTag (insertTag [] (str "work")) (str "planning")
        = [str "work", str "planning"] from by decide]
    simp

/-- Claim C6, witness: the title-overwrite family evaluated on the
counterexample's input, and the heading-tag-block family evaluated on a line
of plain content followed by a tagged heading. -/
theorem c6_late_directives_still_parsed_witness :
    (parseOrgNote (str "hello" ++ str "\n#+TITLE: " ++ str "sneaky")
        = (str "sneaky",
            trimSpace (str "hello" ++ str "\n#+TITLE: " ++ str "sneaky"), []))
      ∧ ∀ t, t ∈ (parseOrgNote (str "hello" ++ str "\n* Review :work:planning:")).2.2
          ↔ (t = str "work" ∨ t = str "planning") :=
  ⟨c6_late_directives_still_parsed.2.1 (str "hello") (str "sneaky") (by decide)
      (by decide) (by decide) (by decide) (by decide) (by decide) (by decide)
      (by decide),
    (c6_late_directives_still_parsed.2.2.2 (str "hello") (by decide) (by decide)
      (by decide) (by decide)).2⟩

/-- The `* CONTENT` header line the serializer writes: no tags (its trailing
word has no colon block), and it starts the content if nothing did yet. -/
theorem orgStep_content_header (i : Nat) (st : OrgState) :
    orgStep i (str "* CONTENT") st
      = ⟨st.title, st.tagAcc,
          match st.contentStart with
          | some j => some j
          | none => some i⟩ := by
  have hht : headingTags (trimSpace (str "* CONTENT")) st.tagAcc = st.tagAcc := rfl
  rw [orgStep]
  simp only [show trimSpace (str "* CONTENT") = str "* CONTENT" from by decide]
  simp only [show toUpperStr (str "* CONTENT") = str "* CONTENT" from by decide,
    show startsWith (str "* CONTENT") (str "#+TITLE:") = false from by decide,
    show startsWith (str "* CONTENT") (str "#+FILETAGS:") = false from by decide,
    show startsWith (str "* CONTENT") (str "#+TAGS:") = false from by decide,
    Bool.false_eq_true, if_false]
  rw [show headingTags (str "* CONTENT") st.tagAcc = st.tagAcc from rfl]
  simp only [show startsWith (str "* CONTENT") (str "#+") = false from by decide,
    eq_false (show (str "* CONTENT" : Str) ≠ [] from by decide), if_false,
    Bool.false_eq_true]

/-- A blank line changes nothing in the outline scan. -/
theorem orgStep_blank (i : Nat) (st : OrgState) : orgStep i [] st = st := by
  obtain ⟨ti, ta, cs⟩ := st
  cases cs <;> rfl

theorem isDigit_not_space {c : Char} (h : c.isDigit = true) : goIsSpace c = false := by
  by_contra hs
  rw [Bool.not_eq_false] at hs
  simp only [goIsSpace, Bool.or_eq_true, beq_iff_eq] at hs
  rcases hs with ((((rfl | rfl) | rfl) | rfl) | rfl) | rfl <;> exact absurd h (by decide)

theorem mem_formatYMD_not_space {t : DateTime} {c : Char} (h : c ∈ formatYMD t) :
    goIsSpace c = false := by
  rw [formatYMD] at h
  simp only [List.mem_append] at h
  rcases h with (((h | h) | h) | h) | h
  · exact isDigit_not_space (isDigit_mem_padNum h)
  · rw [show (str "-" : Str) = ['-'] from rfl, List.mem_singleton] at h
    subst h; decide
  · exact isDigit_not_space (isDigit_mem_padNum h)
  · rw [show (str "-" : Str) = ['-'] from rfl, List.mem_singleton] at h
    subst h; decide
  · exact isDigit_not_space (isDigit_mem_padNum h)

theorem natToDigitsGo_ne_nil (fuel n : Nat) : natToDigitsGo fuel n ≠ [] := by
  cases fuel with
  | zero => simp [natToDigitsGo]
  | succ fuel =>
    rw [natToDigitsGo]
    split
    · simp
    · exact List.append_ne_nil_of_right_ne_nil _ (by simp)

theorem padNum_ne_nil (w n : Nat) : padNum w n ≠ [] := by
  rw [padNum]
  refine List.append_ne_nil_of_right_ne_nil _ ?_
  simp only [ne_eq, List.map_eq_nil_iff]
  exact natToDigitsGo_ne_nil n n

theorem formatYMD_ne_nil (t : DateTime) : formatYMD t ≠ [] := by
  rw [formatYMD]
  exact List.append_ne_nil_of_right_ne_nil _ (padNum_ne_nil 2 t.day)

/-- Claim C4 (amended): decoding the outline serialization reproduces the
title and the tag set exactly (tags written via `#+TAGS:` decode back as the
same set), but the content comes back with the serializer's own `* CONTENT`
header prepended — that header line is the first non-directive line, so it
starts the decoded content.  Tags supplied via `#+TAGS:`, `#+FILETAGS:` and
inline heading tag blocks all decode into a single de-duplicated union set:
the claim's `{work, urgent, planning}` example (second conjunct), a general
`#+TAGS:`/`#+FILETAGS:` union law (third conjunct), and a three-source
example whose duplicates collapse (fourth conjunct, note the de-duplicated
four-element tag list). -/
theorem c4_outline_roundtrip :
    (∀ n : Note,
        '\n' ∉ n.title → trimLeft n.title = n.title → trimRight n.title = n.title →
        n.title ≠ [] →
        (∀ g ∈ n.tags, g ≠ [] ∧ ':' ∉ g ∧ '\n' ∉ g ∧ ∀ c ∈ g, goIsSpace c = false) →
        trimLeft n.content = n.content → trimRight n.content = n.content →
        containsSub n.content (str "\\n") = false → n.content ≠ [] →
        (∀ l ∈ List.splitOn '\n' n.content,
            startsWith (toUpperStr (trimSpace l)) (str "#") = false
              ∧ startsWith (trimSpace l) (str "*") = false) →
        (parseOrgNote (formatOrgNote n)).1 = n.title
          ∧ (parseOrgNote (formatOrgNote n)).2.1 = str "* CONTENT\n" ++ n.content
          ∧ ∀ t, t ∈ (parseOrgNote (formatOrgNote n)).2.2 ↔ t ∈ n.tags)
      ∧ (∀ t : Str,
          t ∈ (parseOrgNote
              (str "#+TAGS: work urgent\n* Review :work:planning:\nbody")).2.2
            ↔ (t = str "work" ∨ t = str "urgent" ∨ t = str "planning"))
      ∧ (∀ G1 G2 : List Str, G1 ≠ [] → G2 ≠ [] →
          (∀ g ∈ G1, g ≠ [] ∧ ':' ∉ g ∧ '\n' ∉ g ∧ ∀ c ∈ g, goIsSpace c = false) →
          (∀ g ∈ G2, g ≠ [] ∧ ':' ∉ g ∧ '\n' ∉ g ∧ ∀ c ∈ g, goIsSpace c = false) →
          ∀ t, t ∈ (parseOrgNote (str "#+TAGS: " ++ List.intercalate (str " ") G1
                ++ str "\n#+FILETAGS: " ++ List.intercalate (str " ") G2)).2.2
            ↔ (t ∈ G1 ∨ t ∈ G2))
      ∧ parseOrgNote (str
            "#+TAGS: work urgent\n#+FILETAGS: :planning:work:\n* Review :work:extra:\nbody")
          = ([], str "* Review :work:extra:\nbody",
              [str "work", str "urgent", str "planning", str "extra"]) := by
  refine ⟨?_, ?_, ?_, ?_⟩
  · intro n ht1 ht2 ht3 ht4 hg hc1 hc2 hc3 hc4 hcl
    have hexp : replaceAll (str "\\n") (str "\n") n.content = n.content :=
      replaceAll_of_not_contains hc3
    obtain ⟨l0, t0, hsp⟩ : ∃ l0 t0, List.splitOn '\n' n.content = l0 :: t0 := by
      cases hx : List.splitOn '\n' n.content with
      | nil => exact absurd hx (by rw [List.splitOn]; exact List.splitOnP_ne_nil _ _)
      | cons a b => exact ⟨a, b, rfl⟩
    have hcl' : ∀ l ∈ (l0 :: t0),
        startsWith (toUpperStr (trimSpace l)) (str "#") = false
          ∧ startsWith (trimSpace l) (str "*") = false := by
      rw [← hsp]
      exact hcl
    have hC : List.intercalate ['\n'] (l0 :: t0) = n.content := by
      rw [← hsp]
      exact List.intercalate_splitOn _ '\n'
    have hnlD : '\n' ∉ str "#+DATE: " ++ formatYMD n.created :=
      nl_not_mem_append (by decide)
        (fun hm => absurd (mem_formatYMD_not_space hm) (by decide))
    have hnlM : '\n' ∉ str "#+MODIFIED: " ++ formatYMD n.modified :=
      nl_not_mem_append (by decide)
        (fun hm => absurd (mem_formatYMD_not_space hm) (by decide))
    have hnlT : '\n' ∉ str "#+TITLE: " ++ n.title := nl_not_mem_append (by decide) ht1
    -- the date-like lines are inert
    have hdateStep : ∀ (pre : Str) (fmt : Str) (i : Nat) (st : OrgState),
        pre = str "#+DATE: " ∨ pre = str "#+MODIFIED: " →
        (∀ c ∈ fmt, goIsSpace c = false) → fmt ≠ [] →
        orgStep i (pre ++ fmt) st = st := by
      intro pre fmt i st hpre hfmt hfne
      have htrimD : trimSpace (pre ++ fmt) = pre ++ fmt := by
        rcases hpre with rfl | rfl
        · rw [show (str "#+DATE: " : Str) ++ fmt = '#' :: (str "+DATE: " ++ fmt) from rfl]
          exact trimSpace_no_op (by decide) (noSpace_trimRight hfmt) hfne
        · rw [show (str "#+MODIFIED: " : Str) ++ fmt
              = '#' :: (str "+MODIFIED: " ++ fmt) from rfl]
          exact trimSpace_no_op (by decide) (noSpace_trimRight hfmt) hfne
      have hupD : toUpperStr (trimSpace (pre ++ fmt))
          = toUpperStr pre ++ toUpperStr fmt := by
        rw [htrimD, toUpperStr, List.map_append]
        rfl
      refine orgStep_other_directive i st ?_ ?_ ?_ ?_ ?_
      · rw [hupD]
        rcases hpre with rfl | rfl
        · exact startsWith_label_false _ (by decide) (by decide)
        · exact startsWith_label_false _ (by decide) (by decide)
      · rw [hupD]
        rcases hpre with rfl | rfl
        · exact startsWith_label_false₂ _ (by decide)
        · exact startsWith_label_false _ (by decide) (by decide)
      · rw [hupD]
        rcases hpre with rfl | rfl
        · exact startsWith_label_false _ (by decide) (by decide)
        · exact startsWith_label_false _ (by decide) (by decide)
      · rw [htrimD]
        rcases hpre with rfl | rfl
        · exact startsWith_label_false _ (by decide) (by decide)
        · exact startsWith_label_false _ (by decide) (by decide)
      · rw [htrimD]
        rcases hpre with rfl | rfl
        · rw [show (str "#+DATE: " : Str) ++ fmt
              = str "#+" ++ (str "DATE: " ++ fmt) from rfl]
          exact startsWith_append_self _ _
        · rw [show (str "#+MODIFIED: " : Str) ++ fmt
              = str "#+" ++ (str "MODIFIED: " ++ fmt) from rfl]
          exact startsWith_append_self _ _
    by_cases htags : n.tags = []
    · have hshape : formatOrgNote n
          = (str "#+TITLE: " ++ n.title)
              ++ '\n' :: ((str "#+DATE: " ++ formatYMD n.created)
                ++ '\n' :: ((str "#+MODIFIED: " ++ formatYMD n.modified)
                  ++ '\n' :: ('\n' :: (str "* CONTENT"
                    ++ '\n' :: n.content)))) := by
        rw [formatOrgNote, htags]
        simp only [List.length_nil, gt_iff_lt, lt_self_iff_false, if_false, hexp]
        rw [show (str "\n" : Str) = ['\n'] from rfl,
          show (str "* CONTENT\n" : Str) = str "* CONTENT" ++ ['\n'] from rfl]
        simp [List.append_assoc]
      have hlines : List.splitOn '\n' (formatOrgNote n)
          = (str "#+TITLE: " ++ n.title)
              :: (str "#+DATE: " ++ formatYMD n.created)
              :: (str "#+MODIFIED: " ++ formatYMD n.modified)
              :: [] :: (str "* CONTENT") :: (l0 :: t0) := by
        rw [hshape, splitOn_newline_append _ hnlT, splitOn_newline_append _ hnlD,
          splitOn_newline_append _ hnlM, splitOn_cons_newline,
          splitOn_newline_append _ (by decide), hsp]
      rw [parseOrgNote, hlines]
      rw [orgLoop, orgStep_title 0 _ ht2 ht3 ht4]
      rw [orgLoop, hdateStep _ _ 1 _ (Or.inl rfl)
        (fun c hc => mem_formatYMD_not_space hc) (formatYMD_ne_nil _)]
      rw [orgLoop, hdateStep _ _ 2 _ (Or.inr rfl)
        (fun c hc => mem_formatYMD_not_space hc) (formatYMD_ne_nil _)]
      rw [orgLoop, orgStep_blank 3 _]
      rw [orgLoop, orgStep_content_header 4 _]
      rw [orgLoop_inert rfl hcl' 5]
      refine ⟨rfl, ?_, ?_⟩
      · show trimSpace (List.intercalate (str "\n")
            (List.drop 4 ((str "#+TITLE: " ++ n.title)
              :: (str "#+DATE: " ++ formatYMD n.created)
              :: (str "#+MODIFIED: " ++ formatYMD n.modified)
              :: [] :: (str "* CONTENT") :: (l0 :: t0)))) = _
        rw [show List.drop 4 ((str "#+TITLE: " ++ n.title)
              :: (str "#+DATE: " ++ formatYMD n.created)
              :: (str "#+MODIFIED: " ++ formatYMD n.modified)
              :: [] :: (str "* CONTENT") :: (l0 :: t0))
            = (str "* CONTENT") :: (l0 :: t0) from rfl]
        rw [show (str "\n" : Str) = ['\n'] from rfl, intercalate_cons₂, hC,
          List.append_assoc,
          show (['\n'] : Str) ++ n.content = '\n' :: n.content from rfl,
          show (str "* CONTENT" : Str) ++ '\n' :: n.content
            = '*' :: (str " CONTENT" ++ ('\n' :: n.content)) from by
              rw [show (str "* CONTENT" : Str) = '*' :: str " CONTENT" from rfl,
                List.cons_append]]
        rw [trimSpace_no_op (by decide)
          (by
            rw [show ('\n' :: n.content : Str) = ['\n'] ++ n.content from rfl]
            exact trimRight_append hc2 hc4)
          (by simp)]
        rfl
      · intro t
        show t ∈ ([] : List Str) ↔ t ∈ n.tags
        rw [htags]
    · have hJ := intercalate_space_facts n.tags htags hg
      have hnlG : '\n' ∉ str "#+TAGS: " ++ List.intercalate (str " ") n.tags :=
        nl_not_mem_append (by decide) hJ.2.2.2.1
      have hshape : formatOrgNote n
          = (str "#+TITLE: " ++ n.title)
              ++ '\n' :: ((str "#+DATE: " ++ formatYMD n.created)
                ++ '\n' :: ((str "#+MODIFIED: " ++ formatYMD n.modified)
                  ++ '\n' :: ((str "#+TAGS: " ++ List.intercalate (str " ") n.tags)
                    ++ '\n' :: ('\n' :: (str "* CONTENT"
                      ++ '\n' :: n.content))))) := by
        rw [formatOrgNote, if_pos (by simp [List.length_pos, htags])]
        simp only [hexp]
        rw [show (str "\n" : Str) = ['\n'] from rfl,
          show (str "* CONTENT\n" : Str) = str "* CONTENT" ++ ['\n'] from rfl]
        simp [List.append_assoc]
      have hlines : List.splitOn '\n' (formatOrgNote n)
          = (str "#+TITLE: " ++ n.title)
              :: (str "#+DATE: " ++ formatYMD n.created)
              :: (str "#+MODIFIED: " ++ formatYMD n.modified)
              :: (str "#+TAGS: " ++ List.intercalate (str " ") n.tags)
              :: [] :: (str "* CONTENT") :: (l0 :: t0) := by
        rw [hshape, splitOn_newline_append _ hnlT, splitOn_newline_append _ hnlD,
          splitOn_newline_append _ hnlM, splitOn_newline_append _ hnlG,
          splitOn_cons_newline, splitOn_newline_append _ (by decide), hsp]
      rw [parseOrgNote, hlines]
      rw [orgLoop, orgStep_title 0 _ ht2 ht3 ht4]
      rw [orgLoop, hdateStep _ _ 1 _ (Or.inl rfl)
        (fun c hc => mem_formatYMD_not_space hc) (formatYMD_ne_nil _)]
      rw [orgLoop, hdateStep _ _ 2 _ (Or.inr rfl)
        (fun c hc => mem_formatYMD_not_space hc) (formatYMD_ne_nil _)]
      rw [orgLoop, orgStep_tags n.tags 3 _ htags hg]
      rw [orgLoop, orgStep_blank 4 _]
      rw [orgLoop, orgStep_content_header 5 _]
      rw [orgLoop_inert rfl hcl' 6]
      refine ⟨rfl, ?_, ?_⟩
      · show trimSpace (List.intercalate (str "\n")
            (List.drop 5 ((str "#+TITLE: " ++ n.title)
              :: (str "#+DATE: " ++ formatYMD n.created)
              :: (str "#+MODIFIED: " ++ formatYMD n.modified)
              :: (str "#+TAGS: " ++ List.intercalate (str " ") n.tags)
              :: [] :: (str "* CONTENT") :: (l0 :: t0)))) = _
        rw [show List.drop 5 ((str "#+TITLE: " ++ n.title)
              :: (str "#+DATE: " ++ formatYMD n.created)
              :: (str "#+MODIFIED: " ++ formatYMD n.modified)
              :: (str "#+TAGS: " ++ List.intercalate (str " ") n.tags)
              :: [] :: (str "* CONTENT") :: (l0 :: t0))
            = (str "* CONTENT") :: (l0 :: t0) from rfl]
        rw [show (str "\n" : Str) = ['\n'] from rfl, intercalate_cons₂, hC,
          List.append_assoc,
          show (['\n'] : Str) ++ n.content = '\n' :: n.content from rfl,
          show (str "* CONTENT" : Str) ++ '\n' :: n.content
            = '*' :: (str " CONTENT" ++ ('\n' :: n.content)) from by
              rw [show (str "* CONTENT" : Str) = '*' :: str " CONTENT" from rfl,
                List.cons_append]]
        rw [trimSpace_no_op (by decide)
          (by
            rw [show ('\n' :: n.content : Str) = ['\n'] ++ n.content from rfl]
            exact trimRight_append hc2 hc4)
          (by simp)]
        rfl
      · intro t
        show t ∈ n.tags.foldl insertTag [] ↔ t ∈ n.tags
        rw [mem_foldl_insertTag]
        simp
  · intro t
    rw [show (parseOrgNote
          (str "#+TAGS: work urgent\n* Review :work:planning:\nbody")).2.2
        = [str "work", str "urgent", str "planning"] from by decide]
    simp
  · intro G1 G2 h1ne h2ne h1 h2 t
    have hJ1 := intercalate_space_facts G1 h1ne h1
    have hJ2 := intercalate_space_facts G2 h2ne h2
    have hnl1 : '\n' ∉ str "#+TAGS: " ++ List.intercalate (str " ") G1 :=
      nl_not_mem_append (by decide) hJ1.2.2.2.1
    have hnl2 : '\n' ∉ str "#+FILETAGS: " ++ List.intercalate (str " ") G2 :=
      nl_not_mem_append (by decide) hJ2.2.2.2.1
    have hshape : str "#+TAGS: " ++ List.intercalate (str " ") G1
        ++ str "\n#+FILETAGS: " ++ List.intercalate (str " ") G2
        = (str "#+TAGS: " ++ List.intercalate (str " ") G1)
            ++ '\n' :: (str "#+FILETAGS: " ++ List.intercalate (str " ") G2) := by
      rw [show (str "\n#+FILETAGS: " : Str) = '\n' :: str "#+FILETAGS: " from rfl]
      simp [List.append_assoc]
    rw [hshape, parseOrgNote, splitOn_newline_append _ hnl1, splitOn_no_newline hnl2]
    rw [orgLoop, orgStep_tags G1 0 _ h1ne h1]
    rw [orgLoop, orgStep_filetags G2 1 _ h2ne h2]
    rw [orgLoop]
    show t ∈ G2.foldl insertTag (G1.foldl insertTag ([] : List Str)) ↔ _
    rw [mem_foldl_insertTag, mem_foldl_insertTag]
    simp
  · decide

/-- Claim C4, witness: the amended round trip evaluated on a concrete
outline note with two tags and two content lines. -/
theorem c4_outline_roundtrip_witness :
    (parseOrgNote
        (formatOrgNote
          (Note.mk (str "w") (str "Meeting") (str "hello world\nsecond line")
            ⟨2024, 12, 1, 14, 30, 22⟩ ⟨2024, 12, 1, 14, 30, 22⟩
            [str "work", str "urgent"] (str "org") (str "w.org")))).1
      = str "Meeting" := by
  have h := c4_outline_roundtrip.1
    (Note.mk (str "w") (str "Meeting") (str "hello world\nsecond line")
      ⟨2024, 12, 1, 14, 30, 22⟩ ⟨2024, 12, 1, 14, 30, 22⟩
      [str "work", str "urgent"] (str "org") (str "w.org"))
    (by decide) (by decide) (by decide) (by decide) (by decide) (by decide)
    (by decide) (by decide) (by decide) (by decide)
  exact h.1

/-- Claim C1 (amended): when a date query parses under one of the known
layouts, `SearchByDate` returns exactly the notes whose creation instant lies
in the OPEN 24-hour interval `(midnight of the parsed date, midnight + 24h)`:
both endpoints are excluded (`After`/`Before` are strict), so a note created
exactly at midnight of the queried day is not returned, while the claim's
boundary example — a note created at `2024-12-01T23:59:59` is returned for
`"2024-12-01"` and not for `"2024-12-02"` — still holds. -/
theorem c1_date_window_open :
    (∀ (q : Str) (target : DateTime) (notes : List Note),
        tryParseDateQuery (toLowerStr (trimSpace q)) = some target →
          ∀ n, n ∈ searchByDate q notes
            ↔ n ∈ notes
                ∧ toSec ⟨target.year, target.month, target.day, 0, 0, 0⟩
                    < toSec n.created
                ∧ toSec n.created
                    < toSec ⟨target.year, target.month, target.day, 0, 0, 0⟩
                        + 86400)
      ∧ searchByDate (str "2024-12-01")
            [Note.mk (str "b") (str "t") (str "c") ⟨2024, 12, 1, 23, 59, 59⟩
              ⟨2024, 12, 1, 23, 59, 59⟩ [] (str "txt") (str "b.txt")]
          = [Note.mk (str "b") (str "t") (str "c") ⟨2024, 12, 1, 23, 59, 59⟩
              ⟨2024, 12, 1, 23, 59, 59⟩ [] (str "txt") (str "b.txt")]
      ∧ searchByDate (str "2024-12-02")
            [Note.mk (str "b") (str "t") (str "c") ⟨2024, 12, 1, 23, 59, 59⟩
              ⟨2024, 12, 1, 23, 59, 59⟩ [] (str "txt") (str "b.txt")]
          = [] := by
  refine ⟨?_, by decide, by decide⟩
  intro q target notes hp n
  simp only [searchByDate, hp]
  rw [List.mem_filter]
  simp [Bool.and_eq_true, decide_eq_true_eq]

/-- Claim C1, witness: the window characterization applied to the query
`"2024-12-01"` and the boundary note. -/
theorem c1_date_window_open_witness :
    Note.mk (str "b") (str "t") (str "c") ⟨2024, 12, 1, 23, 59, 59⟩
        ⟨2024, 12, 1, 23, 59, 59⟩ [] (str "txt") (str "b.txt")
      ∈ searchByDate (str "2024-12-01")
          [Note.mk (str "b") (str "t") (str "c") ⟨2024, 12, 1, 23, 59, 59⟩
            ⟨2024, 12, 1, 23, 59, 59⟩ [] (str "txt") (str "b.txt")]
      ↔ Note.mk (str "b") (str "t") (str "c") ⟨2024, 12, 1, 23, 59, 59⟩
          ⟨2024, 12, 1, 23, 59, 59⟩ [] (str "txt") (str "b.txt")
          ∈ [Note.mk (str "b") (str "t") (str "c") ⟨2024, 12, 1, 23, 59, 59⟩
              ⟨2024, 12, 1, 23, 59, 59⟩ [] (str "txt") (str "b.txt")]
        ∧ toSec ⟨2024, 12, 1, 0, 0, 0⟩
            < toSec (⟨2024, 12, 1, 23, 59, 59⟩ : DateTime)
        ∧ toSec (⟨2024, 12, 1, 23, 59, 59⟩ : DateTime)
            < toSec ⟨2024, 12, 1, 0, 0, 0⟩ + 86400 :=
  c1_date_window_open.1 (str "2024-12-01") ⟨2024, 12, 1, 0, 0, 0⟩
    [Note.mk (str "b") (str "t") (str "c") ⟨2024, 12, 1, 23, 59, 59⟩
      ⟨2024, 12, 1, 23, 59, 59⟩ [] (str "txt") (str "b.txt")]
    (by decide)
    (Note.mk (str "b") (str "t") (str "c") ⟨2024, 12, 1, 23, 59, 59⟩
      ⟨2024, 12, 1, 23, 59, 59⟩ [] (str "txt") (str "b.txt"))

end Burh
